import Mathlib

/-!
# Verification of the multi-cloud transfer orchestration engine

Shallow embedding of the transfer orchestration engine of the
Multi-cloud-file-transfer repository:

* `TransferJob` and its mutators — `src/services/transfer-engine/transfer-job.js`
* `TransferEngine` (dispatcher, queue, active set, pipeline continuations) —
  `src/services/transfer-engine/transfer-engine.js`
* the persisted `transfers` rows and the account store —
  `src/services/database.js`

JavaScript numbers on these paths only ever hold integers and exact small
fractions (byte counts, integer percentages, `x * 0.5`, `x / 100`), so they
are modelled as `Rat` / `Int`; `Math.round` is `⌊x + 1/2⟋` (JS rounds half
towards +∞).  Timestamps (`new Date()`) are threaded as explicit `now : Nat`
arguments.  Each `await`-free stretch of code runs atomically in Node's
single-threaded event loop; the embedding makes every such stretch one
transition, and the awaited database writes issued inside a stretch are folded
into the same transition (no claim here distinguishes the write latency).
-/

namespace CloudTransfer

/-- JavaScript `Math.round`: round half towards positive infinity. -/
def jsRound (x : Rat) : Int := ⌊x + 1/2⌋

/-- The five status strings of a transfer job
(`transfer-job.js`: "queued, running, completed, failed, cancelled"). -/
inductive Status where
  | queued
  | running
  | completed
  | failed
  | cancelled
  deriving DecidableEq, Repr

/-- In-memory `TransferJob` object (`transfer-job.js` constructor).  The
`progressCallbacks` array is omitted: nothing in the repository ever registers
a callback on an engine-owned job, so the array is always empty and the
notification loop is a no-op. -/
structure TransferJob where
  id : Nat
  userId : Nat
  sourceAccountId : Nat
  destinationAccountId : Nat
  sourceFilePath : String
  destinationFilePath : String
  fileName : String
  status : Status := .queued
  progress : Int := 0
  fileSize : Rat := 0
  transferredBytes : Rat := 0
  transferSpeed : Rat := 0
  error : Option String := none
  createdAt : Nat
  startedAt : Option Nat := none
  completedAt : Option Nat := none
  deriving DecidableEq, Repr

namespace TransferJob

/-- `updateProgress(transferred, total, speed = 0)`:
sets the byte counters and recomputes
`progress = total > 0 ? Math.round((transferred / total) * 100) : 0`. -/
def updateProgress (j : TransferJob) (transferred total : Rat) (speed : Rat := 0) :
    TransferJob :=
  { j with
    transferredBytes := transferred
    fileSize := total
    progress := if 0 < total then jsRound (transferred / total * 100) else 0
    transferSpeed := speed }

/-- `start()`: status `running`, record `startedAt`, then
`updateProgress(this.transferredBytes, this.fileSize)`. -/
def start (j : TransferJob) (now : Nat) : TransferJob :=
  let j := { j with status := .running, startedAt := some now }
  j.updateProgress j.transferredBytes j.fileSize

/-- `complete()`: status `completed`, record `completedAt`, set `progress = 100`,
then `updateProgress(this.fileSize, this.fileSize)` (which recomputes
`progress` once more). -/
def complete (j : TransferJob) (now : Nat) : TransferJob :=
  let j := { j with status := .completed, completedAt := some now, progress := 100 }
  j.updateProgress j.fileSize j.fileSize

/-- `fail(error)`: status `failed`, record `completedAt` and the message, then
`updateProgress(this.transferredBytes, this.fileSize)`. -/
def fail (j : TransferJob) (now : Nat) (msg : String) : TransferJob :=
  let j := { j with status := .failed, completedAt := some now, error := some msg }
  j.updateProgress j.transferredBytes j.fileSize

/-- `cancel()`: status `cancelled`, record `completedAt`, then
`updateProgress(this.transferredBytes, this.fileSize)`. -/
def cancel (j : TransferJob) (now : Nat) : TransferJob :=
  let j := { j with status := .cancelled, completedAt := some now }
  j.updateProgress j.transferredBytes j.fileSize

/-- Snapshot returned by `getStats()`. -/
structure Stats where
  id : Nat
  fileName : String
  status : Status
  progress : Int
  fileSize : Rat
  transferredBytes : Rat
  transferSpeed : Rat
  elapsedTime : Int
  estimatedTimeRemaining : Option Int
  error : Option String
  createdAt : Nat
  startedAt : Option Nat
  completedAt : Option Nat
  deriving DecidableEq, Repr

/-- `getStats()`: elapsed milliseconds are
`startedAt ? (completedAt || new Date()) - startedAt : 0`, reported in rounded
seconds; ETA is `(fileSize - transferredBytes) / speed` when `speed > 0`. -/
def getStats (j : TransferJob) (now : Nat) : Stats :=
  let elapsed : Int :=
    match j.startedAt with
    | some t => (j.completedAt.getD now : Int) - (t : Int)
    | none => 0
  { id := j.id
    fileName := j.fileName
    status := j.status
    progress := j.progress
    fileSize := j.fileSize
    transferredBytes := j.transferredBytes
    transferSpeed := j.transferSpeed
    elapsedTime := jsRound ((elapsed : Rat) / 1000)
    estimatedTimeRemaining :=
      if 0 < j.transferSpeed then
        some (jsRound ((j.fileSize - j.transferredBytes) / j.transferSpeed))
      else none
    error := j.error
    createdAt := j.createdAt
    startedAt := j.startedAt
    completedAt := j.completedAt }

end TransferJob

/-- A row of the `cloud_accounts` table, restricted to the columns the engine
reads (`database.js` schema; `getCloudAccountById` returns the whole row). -/
structure CloudAccount where
  id : Nat
  user_id : Nat
  provider : String
  account_name : String
  encrypted_credentials : String
  deriving DecidableEq, Repr

/-- `db.getCloudAccountById(accountId, userId)`:
`SELECT * FROM cloud_accounts WHERE id = ? AND user_id = ?`. -/
def getCloudAccountById (accounts : List CloudAccount) (accountId userId : Nat) :
    Option CloudAccount :=
  accounts.find? (fun a => a.id == accountId && a.user_id == userId)

/-- A row of the `transfers` table, restricted to the columns the engine reads
or writes.  Schema defaults (`database.js`): `status 'queued'`, `progress 0`,
`transferred_bytes 0`, `transfer_speed 0`. -/
structure DbRow where
  id : Nat
  user_id : Nat
  source_account_id : Nat
  destination_account_id : Nat
  source_path : String
  destination_path : String
  file_name : String
  file_size : Rat := 0
  status : Status := .queued
  progress : Int := 0
  transferred_bytes : Rat := 0
  transfer_speed : Rat := 0
  error_message : Option String := none
  started_at : Option Nat := none
  completed_at : Option Nat := none
  created_at : Nat
  deriving DecidableEq, Repr

/-- `TransferEngine.updateJobInDatabase(job)` — the update map it passes to
`db.updateTransferJob(job.id, ...)`; note `updateTransferJob` filters on
`WHERE id = ?` with no user condition. -/
def dbUpdateFromJob (db : List DbRow) (j : TransferJob) : List DbRow :=
  db.map fun r =>
    if r.id = j.id then
      { r with
        status := j.status
        progress := j.progress
        transferred_bytes := j.transferredBytes
        transfer_speed := j.transferSpeed
        error_message := j.error
        started_at := j.startedAt
        completed_at := j.completedAt }
    else r

/-- `maxConcurrentTransfers` as set by the `TransferEngine` constructor. -/
def maxConcurrentTransfers : Nat := 3

/-- The engine's mutable state: the heap of in-memory `TransferJob` objects,
the FIFO `transferQueue` (job ids, head first), the key set of the
`activeTransfers` map, the set of `processTransfer` coroutines still in
flight (they keep a reference to their job even after the dispatcher evicts
it from `activeTransfers`), the persisted `transfers` rows, and the
autoincrement counter of the `transfers` table. -/
structure EngineState where
  jobs : List TransferJob
  transferQueue : List Nat
  activeTransfers : List Nat
  pipes : List Nat
  db : List DbRow
  nextId : Nat := 1
  deriving DecidableEq, Repr

/-- The engine before any call: empty queue, empty active map, empty table. -/
def initState : EngineState :=
  { jobs := [], transferQueue := [], activeTransfers := [], pipes := [], db := [] }

/-- Dereference a job id among in-memory `TransferJob` objects
(`List.find?` on the id, unfolded for easier reasoning). -/
def findJob : List TransferJob → Nat → Option TransferJob
  | [], _ => none
  | j :: rest, id => if j.id = id then some j else findJob rest id

/-- Dereference a job id in the heap of in-memory `TransferJob` objects. -/
def lookupJob (s : EngineState) (id : Nat) : Option TransferJob :=
  findJob s.jobs id

/-- Replace the heap object with the given id (mutation of the shared
`TransferJob` reference). -/
def writeJob (jobs : List TransferJob) (j : TransferJob) : List TransferJob :=
  jobs.map fun k => if k.id = j.id then j else k

/-- The in-memory status of a job id, if the object exists. -/
def statusOf (s : EngineState) (id : Nat) : Option Status :=
  (lookupJob s id).map (·.status)

/-- The persisted status of a transfer id, if the row exists. -/
def dbStatusOf (s : EngineState) (id : Nat) : Option Status :=
  (s.db.find? (fun r => r.id == id)).map (·.status)

/-- `TransferEngine.processQueue()`: while the queue is non-empty and fewer
than `maxConcurrentTransfers` transfers are active, shift the head job into
`activeTransfers` and launch `processTransfer(job)` for it.  The launched
coroutine runs synchronously up to its first `await`, i.e. through
`job.start()`; the `await`ed database write of the running snapshot is folded
in.  The `isProcessing` flag only collapses re-entrant calls of this
synchronous loop, so the drain is one atomic transition. -/
def drainAux : List Nat → EngineState → Nat → EngineState
  | [], s, _ => s
  | id :: rest, s, now =>
    if s.activeTransfers.length < maxConcurrentTransfers then
      match findJob s.jobs id with
      | some j =>
        let j' := j.start now
        drainAux rest
          { jobs := writeJob s.jobs j'
            transferQueue := rest
            activeTransfers := s.activeTransfers ++ [id]
            pipes := s.pipes ++ [id]
            db := dbUpdateFromJob s.db j'
            nextId := s.nextId } now
      | none => s
    else s

/-- `TransferEngine.processQueue()` proper: drain starting from the current
queue (the list argument of `drainAux` always mirrors the `transferQueue`
field of its state argument). -/
def processQueue (s : EngineState) (now : Nat) : EngineState :=
  drainAux s.transferQueue s now

/-- Arguments of `TransferEngine.createTransfer(options)`. -/
structure CreateOptions where
  userId : Nat
  sourceAccountId : Nat
  destinationAccountId : Nat
  sourceFilePath : String
  destinationFilePath : String
  fileName : String
  deriving DecidableEq, Repr

/-- Value returned by a successful `createTransfer`. -/
structure CreateResult where
  transferId : Nat
  status : String
  deriving DecidableEq, Repr

/-- The fresh `transfers` row inserted by `db.createTransferJob` (all columns
not listed in the INSERT keep their schema defaults, in particular
`status 'queued'` and `progress 0`). -/
def newDbRow (opts : CreateOptions) (transferId : Nat) (fileSize : Rat) (now : Nat) :
    DbRow :=
  { id := transferId
    user_id := opts.userId
    source_account_id := opts.sourceAccountId
    destination_account_id := opts.destinationAccountId
    source_path := opts.sourceFilePath
    destination_path := opts.destinationFilePath
    file_name := opts.fileName
    file_size := fileSize
    created_at := now }

/-- The fresh `TransferJob` object built by `createTransfer`. -/
def newTransferJob (opts : CreateOptions) (transferId : Nat) (fileSize : Rat)
    (now : Nat) : TransferJob :=
  { id := transferId
    userId := opts.userId
    sourceAccountId := opts.sourceAccountId
    destinationAccountId := opts.destinationAccountId
    sourceFilePath := opts.sourceFilePath
    destinationFilePath := opts.destinationFilePath
    fileName := opts.fileName
    fileSize := fileSize
    createdAt := now }

/-- The engine state right after `createTransfer` has inserted the row and
pushed the job on the queue, before the final `processQueue()`. -/
def enqueueState (s : EngineState) (opts : CreateOptions) (fileSize : Rat)
    (now : Nat) : EngineState :=
  { jobs := s.jobs ++ [newTransferJob opts s.nextId fileSize now]
    transferQueue := s.transferQueue ++ [s.nextId]
    activeTransfers := s.activeTransfers
    pipes := s.pipes
    db := s.db ++ [newDbRow opts s.nextId fileSize now]
    nextId := s.nextId + 1 }

/-- `TransferEngine.createTransfer(options)`.  `probe` is the outcome of the
best-effort file-size probe (`decryptCredentials` + `getFileInfo` inside a
`try`): `none` models the catch branch (size stays the initial `0`),
`some size` a successful probe.  Errors thrown before the queue push are the
function's `Except.error` results; on success the job is inserted in the
`transfers` table, pushed on the queue, and the queue is drained. -/
def createTransfer (accounts : List CloudAccount) (probe : Option Nat)
    (s : EngineState) (opts : CreateOptions) (now : Nat) :
    Except String (EngineState × CreateResult) :=
  match getCloudAccountById accounts opts.sourceAccountId opts.userId,
        getCloudAccountById accounts opts.destinationAccountId opts.userId with
  | some src, some dst =>
    if src.id == dst.id then
      .error "Source and destination accounts cannot be the same"
    else
      .ok (processQueue (enqueueState s opts ((probe.getD 0 : Nat) : Rat) now) now,
           { transferId := s.nextId, status := "queued" })
  | _, _ => .error "Source or destination account not found"

/-- The caller-observed engine state of a `createTransfer` call: a thrown
validation or not-found error leaves the engine untouched. -/
def createTransferState (accounts : List CloudAccount) (probe : Option Nat)
    (s : EngineState) (opts : CreateOptions) (now : Nat) : EngineState :=
  match createTransfer accounts probe s opts now with
  | .ok (s', _) => s'
  | .error _ => s

/-- Tail of `processTransfer(job)` on success: `job.complete()`, persist,
delete from `activeTransfers`, `processQueue()`.  The coroutine then returns,
ending its pipe.  This fires whenever the upload await resolves, whether or
not the dispatcher has meanwhile evicted the job (cooperative cancellation
does not interrupt the coroutine, which still holds the job reference). -/
def processComplete (s : EngineState) (id : Nat) (now : Nat) : EngineState :=
  match lookupJob s id with
  | some j =>
    let j' := j.complete now
    processQueue
      { jobs := writeJob s.jobs j'
        transferQueue := s.transferQueue
        activeTransfers := s.activeTransfers.filter (fun a => a ≠ id)
        pipes := s.pipes.filter (fun a => a ≠ id)
        db := dbUpdateFromJob s.db j'
        nextId := s.nextId } now
  | none => s

/-- `catch` branch of `processTransfer(job)`: `job.fail(error)`, persist,
delete from `activeTransfers`, `processQueue()`; the rethrown error is then
swallowed by the `.catch` attached in `processQueue`, so it reaches no caller. -/
def processFail (s : EngineState) (id : Nat) (msg : String) (now : Nat) : EngineState :=
  match lookupJob s id with
  | some j =>
    let j' := j.fail now msg
    processQueue
      { jobs := writeJob s.jobs j'
        transferQueue := s.transferQueue
        activeTransfers := s.activeTransfers.filter (fun a => a ≠ id)
        pipes := s.pipes.filter (fun a => a ≠ id)
        db := dbUpdateFromJob s.db j'
        nextId := s.nextId } now
  | none => s

/-- Download/upload phase of a progress callback inside `processTransfer`. -/
inductive Phase where
  | download
  | upload
  deriving DecidableEq, Repr

/-- The progress remapping in `processTransfer`'s `onProgress` callbacks:
download events use `Math.round(percentage * 0.5)`, upload events
`50 + Math.round(percentage * 0.5)`. -/
def overallProgress (phase : Phase) (percentage : Rat) : Int :=
  match phase with
  | .download => jsRound (percentage * (1/2))
  | .upload => 50 + jsRound (percentage * (1/2))

/-- One `onProgress` delivery inside `processTransfer`:
`job.updateProgress((overallProgress * job.fileSize) / 100, job.fileSize,
progress.speed || 0)` followed by `updateJobInDatabase(job)`. -/
def pipelineProgress (s : EngineState) (id : Nat) (phase : Phase)
    (percentage speed : Rat) : EngineState :=
  match lookupJob s id with
  | some j =>
    let ov : Rat := (overallProgress phase percentage : Int)
    let j' := j.updateProgress (ov * j.fileSize / 100) j.fileSize speed
    { s with jobs := writeJob s.jobs j', db := dbUpdateFromJob s.db j' }
  | none => s

/-- Value returned by `cancelTransfer`. -/
structure CancelResult where
  success : Bool
  message : String
  deriving DecidableEq, Repr

/-- `TransferEngine.cancelTransfer(transferId, userId)`.  If the id is in
`activeTransfers`: `job.cancel()`, persist, evict from the map (the in-flight
coroutine and its pipe are untouched).  Otherwise: update the persisted row
directly to `cancelled` (`updateTransferJob` has no user filter).  The
`userId` argument is never read. -/
def cancelTransfer (s : EngineState) (transferId : Nat) (userId : Nat) (now : Nat) :
    EngineState × CancelResult :=
  if transferId ∈ s.activeTransfers then
    match lookupJob s transferId with
    | some j =>
      let j' := j.cancel now
      ({ s with
          jobs := writeJob s.jobs j'
          activeTransfers := s.activeTransfers.filter (fun a => a ≠ transferId)
          db := dbUpdateFromJob s.db j' },
       { success := true, message := "Transfer cancelled" })
    | none =>
      -- every key of the activeTransfers map holds a job object
      (s, { success := true, message := "Transfer cancelled" })
  else
    ({ s with
        db := s.db.map fun r =>
          if r.id = transferId then
            { r with status := .cancelled, completed_at := some now }
          else r },
     { success := true, message := "Transfer cancelled" })

/-- Result shape of `getTransferStatus`: either the live `getStats()` snapshot
of an active job, or the field selection made from the persisted row. -/
inductive StatusResult where
  | live (stats : TransferJob.Stats)
  | persisted (id : Nat) (fileName : String) (status : Status) (progress : Int)
      (fileSize : Rat) (transferredBytes : Rat) (transferSpeed : Rat)
      (error : Option String) (createdAt : Nat) (startedAt : Option Nat)
      (completedAt : Option Nat)
  deriving DecidableEq, Repr

/-- `TransferEngine.getTransferStatus(transferId, userId)`: an id resident in
`activeTransfers` answers with the live `getStats()` (no ownership check);
otherwise `db.getTransferById(transferId, userId)`
(`WHERE id = ? AND user_id = ?`), throwing `"Transfer not found"` on a miss. -/
def getTransferStatus (s : EngineState) (transferId userId : Nat) (now : Nat) :
    Except String StatusResult :=
  if transferId ∈ s.activeTransfers then
    match lookupJob s transferId with
    | some j => .ok (.live (j.getStats now))
    | none => .error "Transfer not found"
  else
    match s.db.find? (fun r => r.id == transferId && r.user_id == userId) with
    | some r =>
      .ok (.persisted r.id r.file_name r.status r.progress r.file_size
        r.transferred_bytes r.transfer_speed r.error_message r.created_at
        r.started_at r.completed_at)
    | none => .error "Transfer not found"

/-- One atomic transition of the engine, as observed between `await`
boundaries: a `createTransfer` call (with any probe outcome), the terminal
continuation of an in-flight pipeline (success or failure), a progress
delivery from a provider stream (providers report
`Math.round(loaded/total*100)`, an integer between 0 and 100), or a
`cancelTransfer` call. -/
inductive Step (accounts : List CloudAccount) : EngineState → EngineState → Prop
  | create {s s' : EngineState} {r : CreateResult}
      (probe : Option Nat) (opts : CreateOptions) (now : Nat)
      (h : createTransfer accounts probe s opts now = .ok (s', r)) :
      Step accounts s s'
  | complete {s : EngineState} (id : Nat) (now : Nat)
      (h : id ∈ s.pipes) :
      Step accounts s (processComplete s id now)
  | fail {s : EngineState} (id : Nat) (msg : String) (now : Nat)
      (h : id ∈ s.pipes) :
      Step accounts s (processFail s id msg now)
  | progress {s : EngineState} (id : Nat) (phase : Phase)
      (percentage speed : Rat) (h : id ∈ s.pipes)
      (h0 : 0 ≤ percentage) (h100 : percentage ≤ 100) :
      Step accounts s (pipelineProgress s id phase percentage speed)
  | cancel {s : EngineState} (id userId : Nat) (now : Nat) :
      Step accounts s (cancelTransfer s id userId now).1

/-- The states the engine can reach from a fresh instance. -/
inductive Reachable (accounts : List CloudAccount) : EngineState → Prop
  | init : Reachable accounts initState
  | step {s s' : EngineState} :
      Reachable accounts s → Step accounts s s' → Reachable accounts s'

/-- Whether an `Except` result is a success. -/
def exceptOk {ε α : Type} : Except ε α → Bool
  | .ok _ => true
  | .error _ => false

/-- Number of in-memory jobs whose status is `running`. -/
def runningCount (s : EngineState) : Nat :=
  (s.jobs.filter (fun j => j.status == Status.running)).length

/-! ### Concrete scenario states

Used by the counterexample and witness theorems below: one user (id 1) with
an S3 account (id 1) and a Drive account (id 2), submitting transfers from
account 1 to account 2. -/

/-- Two connected cloud accounts of user 1. -/
def demoAccounts : List CloudAccount :=
  [ { id := 1, user_id := 1, provider := "aws-s3", account_name := "bucket",
      encrypted_credentials := "enc-a" },
    { id := 2, user_id := 1, provider := "google-drive", account_name := "drive",
      encrypted_credentials := "enc-b" } ]

/-- A transfer request of user 1 from account 1 to account 2. -/
def demoOpts : CreateOptions :=
  { userId := 1, sourceAccountId := 1, destinationAccountId := 2,
    sourceFilePath := "docs/report.pdf", destinationFilePath := "report.pdf",
    fileName := "report.pdf" }

/-- Run one successful `createTransfer` (probe answers 100 bytes), keeping the
state; erroring calls keep the previous state. -/
def demoCreate (s : EngineState) : EngineState :=
  createTransferState demoAccounts (some 100) s demoOpts 0

/-- Engine after 1, 2, 3 and 4 back-to-back `createTransfer` calls: jobs 1-3
are running (the active set is full), job 4 sits queued. -/
def demoS1 : EngineState := demoCreate initState

def demoS2 : EngineState := demoCreate demoS1

def demoS3 : EngineState := demoCreate demoS2

def demoS4 : EngineState := demoCreate demoS3

/-- `cancelTransfer(4, 1)` while job 4 is still queued: only the database row
is flipped to `cancelled`; the in-memory job stays in `transferQueue`. -/
def demoAfterCancel4 : EngineState := (cancelTransfer demoS4 4 1 1).1

/-- Job 1's pipeline then finishes: the freed slot makes `processQueue` start
the cancelled-in-database job 4. -/
def demoRestarted : EngineState := processComplete demoAfterCancel4 1 2

/-- `cancelTransfer(1, 1)` while job 1 is active: the job is cancelled in
memory and evicted, but its pipeline coroutine is still in flight. -/
def demoRaceCancel : EngineState := (cancelTransfer demoS4 1 1 1).1

/-- The in-flight pipeline of the already-cancelled job 1 then completes. -/
def demoRaceDone : EngineState := processComplete demoRaceCancel 1 2

/-- A transfer created while the file-size probe fails (`probe = none`):
job 1 starts immediately with `fileSize = 0`. -/
def demoZeroSize : EngineState :=
  createTransferState demoAccounts none initState demoOpts 0

/-- An upload-phase progress event reporting 100% for the zero-size job. -/
def demoZeroSizeUpload : EngineState :=
  pipelineProgress demoZeroSize 1 .upload 100 0

/-- A `TransferJob` whose file size is unknown (`fileSize = 0`), as built by
`createTransfer` when the probe fails. -/
def demoJobNoSize : TransferJob := newTransferJob demoOpts 1 0 0

/-- A running 1000-byte job of user 1, written as a plain record literal. -/
def demoRunningJob : TransferJob :=
  { id := 1, userId := 1, sourceAccountId := 1, destinationAccountId := 2,
    sourceFilePath := "docs/report.pdf", destinationFilePath := "report.pdf",
    fileName := "report.pdf", status := .running, fileSize := 1000,
    createdAt := 0, startedAt := some 0 }

/-- An engine state holding exactly `demoRunningJob` in its active set. -/
def demoRunningState : EngineState :=
  { jobs := [demoRunningJob], transferQueue := [], activeTransfers := [1],
    pipes := [1],
    db := [newDbRow demoOpts 1 1000 0],
    nextId := 2 }

/-- A request whose source and destination are the same existing account. -/
def demoSameOpts : CreateOptions :=
  { demoOpts with sourceAccountId := 1, destinationAccountId := 1 }

/-- A request whose source and destination are the same missing account id. -/
def demoMissingOpts : CreateOptions :=
  { demoOpts with sourceAccountId := 5, destinationAccountId := 5 }

/-- Structural invariant of the engine, maintained by every transition:
consistency of the job heap, queue, active set and pipe set, the concurrency
bound, and the byte/percentage bounds of every job. -/
structure Inv (s : EngineState) : Prop where
  jobsNodup : (s.jobs.map (·.id)).Nodup
  queueNodup : s.transferQueue.Nodup
  jobsLt : ∀ j ∈ s.jobs, j.id < s.nextId
  queueJob : ∀ id ∈ s.transferQueue,
    ∃ j, findJob s.jobs id = some j ∧ j.status = .queued
  activeJob : ∀ id ∈ s.activeTransfers,
    ∃ j, findJob s.jobs id = some j ∧ j.status = .running
  pipesJob : ∀ id ∈ s.pipes,
    ∃ j, findJob s.jobs id = some j ∧ (j.status = .running ∨ j.status = .cancelled)
  runningActive : ∀ j ∈ s.jobs, j.status = .running → j.id ∈ s.activeTransfers
  activePipes : ∀ id ∈ s.activeTransfers, id ∈ s.pipes
  queueActive : ∀ id ∈ s.transferQueue, id ∉ s.activeTransfers
  queuePipes : ∀ id ∈ s.transferQueue, id ∉ s.pipes
  activeLen : s.activeTransfers.length ≤ maxConcurrentTransfers
  progLB : ∀ j ∈ s.jobs, 0 ≤ j.progress
  progUB : ∀ j ∈ s.jobs, j.progress ≤ 100
  tbLB : ∀ j ∈ s.jobs, 0 ≤ j.transferredBytes
  tbUB : ∀ j ∈ s.jobs, j.transferredBytes ≤ j.fileSize
  fsLB : ∀ j ∈ s.jobs, 0 ≤ j.fileSize

/-- Whenever work is waiting in the queue, some pipeline is still in flight
(so a settling pipeline will re-drain the queue). -/
def Drained (s : EngineState) : Prop :=
  s.transferQueue ≠ [] → s.pipes ≠ []

/-! ### Finer-grained model: the settle suspension of `processTransfer`

`processComplete`/`processFail` above fold `job.complete()` (resp.
`job.fail(error)`), the `await`ed database persist, the `activeTransfers`
eviction and the re-drain into one transition.  In the source there is an
`await this.updateJobInDatabase(job)` between the terminal write and
`this.activeTransfers.delete(job.id)`, and a `cancelTransfer` arriving during
that suspension still finds the id in `activeTransfers` and calls
`job.cancel()` on the already-terminal job.  The model below splits the settle
at exactly that `await`, so the status-edge analysis is carried out at the
true `await` granularity of the source.  (The `await` inside
`cancelTransfer`'s own active branch only postpones the eviction; every
interleaving it admits is already covered by the in-flight pipe surviving the
eviction, so that call stays one transition.  The awaits between `job.start()`
and the terminal write never touch the job's status, so they need no further
splitting: progress, cancel and terminal events may interleave freely while
the pipe is in flight.) -/

/-- Engine state with the settle suspension made explicit: the inherited
`pipes` field now holds only the coroutines that have not yet performed their
terminal write, while `settling` holds those suspended at the persist `await`
after `job.complete()` / `job.fail(error)` — their `activeTransfers` eviction
and re-drain are still pending, so their id may still sit in the active map
with an already-terminal job. -/
structure FineState extends EngineState where
  settling : List Nat
  deriving DecidableEq, Repr

/-- A fresh engine in the finer-grained model. -/
def initFine : FineState :=
  { toEngineState := initState, settling := [] }

/-- First half of `processTransfer`'s success tail: `job.complete()` and the
database persist it hands off; the coroutine then suspends at the `await`,
its pipe moving to `settling`.  `activeTransfers` is untouched — that is the
window `cancelTransfer` races with. -/
def settleComplete (s : FineState) (id : Nat) (now : Nat) : FineState :=
  match findJob s.jobs id with
  | some j =>
    let j' := j.complete now
    { jobs := writeJob s.jobs j'
      transferQueue := s.transferQueue
      activeTransfers := s.activeTransfers
      pipes := s.pipes.filter (fun a => a ≠ id)
      db := dbUpdateFromJob s.db j'
      nextId := s.nextId
      settling := id :: s.settling }
  | none => s

/-- First half of `processTransfer`'s catch branch: `job.fail(error)` and the
persist, suspending at the `await` exactly as in `settleComplete`. -/
def settleFail (s : FineState) (id : Nat) (msg : String) (now : Nat) : FineState :=
  match findJob s.jobs id with
  | some j =>
    let j' := j.fail now msg
    { jobs := writeJob s.jobs j'
      transferQueue := s.transferQueue
      activeTransfers := s.activeTransfers
      pipes := s.pipes.filter (fun a => a ≠ id)
      db := dbUpdateFromJob s.db j'
      nextId := s.nextId
      settling := id :: s.settling }
  | none => s

/-- Second half of the settle: the persist `await` resolves, the coroutine
deletes the id from `activeTransfers` (a no-op when a cancel already evicted
it), calls `processQueue()` and returns, ending its coroutine. -/
def settleEvict (s : FineState) (id : Nat) (now : Nat) : FineState :=
  { toEngineState :=
      processQueue
        { s.toEngineState with
            activeTransfers := s.activeTransfers.filter (fun a => a ≠ id) } now
    settling := s.settling.filter (fun a => a ≠ id) }

/-- A progress delivery in the finer-grained model: only a pipe that has not
yet performed its terminal write still receives provider stream events. -/
def fineProgress (s : FineState) (id : Nat) (phase : Phase)
    (percentage speed : Rat) : FineState :=
  { toEngineState := pipelineProgress s.toEngineState id phase percentage speed
    settling := s.settling }

/-- `cancelTransfer` in the finer-grained model: the engine fields change as
in `cancelTransfer`; no in-flight or settling coroutine is interrupted. -/
def fineCancel (s : FineState) (transferId userId now : Nat) : FineState :=
  { toEngineState := (cancelTransfer s.toEngineState transferId userId now).1
    settling := s.settling }

/-- One transition of the finer-grained model: the `await`-delimited stretches
of the source, with `processTransfer`'s settle split at its persist `await`. -/
inductive FineStep (accounts : List CloudAccount) : FineState → FineState → Prop
  | create {s : FineState} {e : EngineState} {r : CreateResult}
      (probe : Option Nat) (opts : CreateOptions) (now : Nat)
      (h : createTransfer accounts probe s.toEngineState opts now = .ok (e, r)) :
      FineStep accounts s { toEngineState := e, settling := s.settling }
  | complete {s : FineState} (id : Nat) (now : Nat) (h : id ∈ s.pipes) :
      FineStep accounts s (settleComplete s id now)
  | fail {s : FineState} (id : Nat) (msg : String) (now : Nat) (h : id ∈ s.pipes) :
      FineStep accounts s (settleFail s id msg now)
  | evict {s : FineState} (id : Nat) (now : Nat) (h : id ∈ s.settling) :
      FineStep accounts s (settleEvict s id now)
  | progress {s : FineState} (id : Nat) (phase : Phase)
      (percentage speed : Rat) (h : id ∈ s.pipes)
      (h0 : 0 ≤ percentage) (h100 : percentage ≤ 100) :
      FineStep accounts s (fineProgress s id phase percentage speed)
  | cancel {s : FineState} (id userId : Nat) (now : Nat) :
      FineStep accounts s (fineCancel s id userId now)

/-- The states the finer-grained engine can reach from a fresh instance. -/
inductive FineReachable (accounts : List CloudAccount) : FineState → Prop
  | init : FineReachable accounts initFine
  | step {s s' : FineState} :
      FineReachable accounts s → FineStep accounts s s' → FineReachable accounts s'

/-- The fragment of the engine invariant that classifies the in-memory status
of every id by the bookkeeping list holding it, stated over the embedded
engine fields (the settle suspensions need no constraint of their own).  Note
`activeJob`: unlike in the one-shot-settle model, an id still in
`activeTransfers` may hold an already-`completed`/`failed` job — exactly the
settle window `cancelTransfer` races with. -/
structure EdgeInv (s : EngineState) : Prop where
  jobsLt : ∀ j ∈ s.jobs, j.id < s.nextId
  queueNodup : s.transferQueue.Nodup
  queueJob : ∀ id ∈ s.transferQueue,
    ∃ j, findJob s.jobs id = some j ∧ j.status = .queued
  activeJob : ∀ id ∈ s.activeTransfers,
    ∃ j, findJob s.jobs id = some j ∧
      (j.status = .running ∨ j.status = .completed ∨ j.status = .failed)
  pipesJob : ∀ id ∈ s.pipes,
    ∃ j, findJob s.jobs id = some j ∧
      (j.status = .running ∨ j.status = .cancelled)

/-- The in-memory status transitions the engine actually performs, at `await`
granularity: the four legal edges of the specification plus the four produced
by the cancel races — the terminal write of a still-in-flight pipeline lands
on a cancel-evicted job (`cancelled → completed/failed`), and a
`cancelTransfer` lands during the settle suspension while the already-terminal
job still sits in `activeTransfers` (`completed/failed → cancelled`). -/
def fineStatusEdges : List (Status × Status) :=
  [(.queued, .running), (.running, .completed), (.running, .failed),
   (.running, .cancelled), (.cancelled, .completed), (.cancelled, .failed),
   (.completed, .cancelled), (.failed, .cancelled)]

/-- One successful `createTransfer` (probe answers 100 bytes) in the
finer-grained model. -/
def fineDemoCreate (s : FineState) : FineState :=
  { toEngineState := demoCreate s.toEngineState, settling := s.settling }

/-- A fresh finer-grained engine after one `createTransfer`: job 1 is running,
its pipeline in flight. -/
def fineS1 : FineState := fineDemoCreate initFine

/-- Job 1's pipeline performs its terminal write: the job is `completed` and
persisted, but the coroutine is suspended at the persist `await` — the id is
still in `activeTransfers`. -/
def fineSettle1 : FineState := settleComplete fineS1 1 1

/-- `cancelTransfer(1, 2)` lands during the settle suspension: the id is still
active, so `job.cancel()` flips the already-completed job to `cancelled`. -/
def fineCancelled1 : FineState := fineCancel fineSettle1 1 2 2

/-- The converse race: `cancelTransfer(1, 1)` evicts running job 1 while its
pipeline is still in flight. -/
def fineRaceCancel : FineState := fineCancel fineS1 1 1 1

/-- The in-flight pipeline of the already-cancelled job 1 then performs its
terminal write. -/
def fineRaceDone : FineState := settleComplete fineRaceCancel 1 2

/-! ### Arithmetic facts about the JavaScript rounding -/

theorem jsRound_nonneg {x : Rat} (h : 0 ≤ x) : 0 ≤ jsRound x := by
  unfold jsRound
  exact Int.le_floor.mpr (by push_cast; linarith)

theorem jsRound_le {x : Rat} {n : Int} (h : x ≤ (n : Rat)) : jsRound x ≤ n := by
  unfold jsRound
  rw [Int.floor_le_iff]
  push_cast
  linarith

theorem jsRound_ge {x : Rat} {n : Int} (h : (n : Rat) ≤ x) : n ≤ jsRound x := by
  unfold jsRound
  exact Int.le_floor.mpr (by push_cast; linarith)

theorem jsRound_mono {x y : Rat} (h : x ≤ y) : jsRound x ≤ jsRound y := by
  unfold jsRound
  exact Int.floor_le_floor (by linarith)

theorem jsRound_intCast (n : Int) : jsRound (n : Rat) = n := by
  unfold jsRound
  rw [add_comm, Int.floor_add_int]
  norm_num

theorem jsRound_eq {x : Rat} {n : Int} (h1 : (n : Rat) ≤ x + 1/2)
    (h2 : x + 1/2 < (n : Rat) + 1) : jsRound x = n := by
  unfold jsRound
  rw [Int.floor_eq_iff]
  exact ⟨h1, by push_cast; linarith⟩

theorem updateProgress_progress_nonneg (j : TransferJob) {tb : Rat}
    (total sp : Rat) (h0 : 0 ≤ tb) :
    0 ≤ (j.updateProgress tb total sp).progress := by
  unfold TransferJob.updateProgress
  simp only
  split
  · next ht =>
    exact jsRound_nonneg (by positivity)
  · exact le_refl 0

theorem updateProgress_progress_le (j : TransferJob) {tb total : Rat}
    (sp : Rat) (h1 : tb ≤ total) :
    (j.updateProgress tb total sp).progress ≤ 100 := by
  unfold TransferJob.updateProgress
  simp only
  split
  · next ht =>
    refine jsRound_le ?_
    push_cast
    rw [div_mul_eq_mul_div, div_le_iff ht]
    nlinarith
  · norm_num

theorem overallProgress_nonneg {pct : Rat} (ph : Phase) (h : 0 ≤ pct) :
    0 ≤ overallProgress ph pct := by
  cases ph with
  | download => exact jsRound_nonneg (by positivity)
  | upload =>
    have : (0:Int) ≤ jsRound (pct * (1/2)) := jsRound_nonneg (by positivity)
    show 0 ≤ 50 + jsRound (pct * (1/2))
    omega

theorem overallProgress_le {pct : Rat} (ph : Phase) (h : pct ≤ 100) :
    overallProgress ph pct ≤ 100 := by
  have hhalf : jsRound (pct * (1/2)) ≤ (50 : Int) := jsRound_le (by push_cast; linarith)
  cases ph with
  | download =>
    show jsRound (pct * (1/2)) ≤ 100
    omega
  | upload =>
    show 50 + jsRound (pct * (1/2)) ≤ 100
    omega

/-! ### Heap lemmas: `findJob` and `writeJob` -/

theorem findJob_some {jobs : List TransferJob} {id : Nat} {j : TransferJob}
    (h : findJob jobs id = some j) : j ∈ jobs ∧ j.id = id := by
  induction jobs with
  | nil => simp [findJob] at h
  | cons k rest ih =>
    unfold findJob at h
    split at h
    · next hc =>
      cases h
      exact ⟨List.mem_cons_self _ _, by simpa using hc⟩
    · rcases ih h with ⟨h1, h2⟩
      exact ⟨List.mem_cons_of_mem _ h1, h2⟩

theorem findJob_isSome {jobs : List TransferJob} {id : Nat} {j : TransferJob}
    (h : j ∈ jobs) (hid : j.id = id) : (findJob jobs id).isSome := by
  induction jobs with
  | nil => simp at h
  | cons k rest ih =>
    unfold findJob
    split
    · rfl
    · next hc =>
      rcases List.mem_cons.mp h with he | hm
      · subst he
        simp [hid] at hc
      · exact ih hm

theorem findJob_writeJob (jobs : List TransferJob) (j : TransferJob) (id : Nat) :
    findJob (writeJob jobs j) id =
      if id = j.id then (findJob jobs j.id).map (fun _ => j)
      else findJob jobs id := by
  induction jobs with
  | nil => simp [findJob, writeJob]
  | cons k rest ih =>
    unfold writeJob at ih ⊢
    simp only [List.map_cons]
    by_cases hk : k.id = j.id <;> by_cases hid : id = j.id
    · subst hid
      unfold findJob
      simp [hk]
    · unfold findJob
      have h1 : ¬j.id = id := fun h => hid h.symm
      have h2 : ¬k.id = id := fun h => hid (by rw [← h, hk])
      simp [hk, h1, h2, ih, hid]
    · subst hid
      unfold findJob
      simp [hk, ih]
    · unfold findJob
      by_cases hkid : k.id = id
      · simp [hk, hkid, hid]
      · simp [hk, hkid, ih, hid]

theorem writeJob_map_id (jobs : List TransferJob) (j : TransferJob) :
    (writeJob jobs j).map (·.id) = jobs.map (·.id) := by
  induction jobs with
  | nil => rfl
  | cons k rest ih =>
    unfold writeJob at *
    simp only [List.map_cons, ih, List.cons.injEq, and_true]
    by_cases hk : k.id = j.id
    · simp [hk]
    · simp [hk]

theorem mem_writeJob {jobs : List TransferJob} {j k : TransferJob}
    (h : k ∈ writeJob jobs j) : (k.id = j.id → k = j) ∧ (k.id ≠ j.id → k ∈ jobs) := by
  unfold writeJob at h
  rcases List.mem_map.mp h with ⟨k₀, hk₀, hek⟩
  by_cases hc : k₀.id = j.id
  · rw [if_pos hc] at hek
    subst hek
    exact ⟨fun _ => rfl, fun hne => absurd rfl hne⟩
  · rw [if_neg hc] at hek
    subst hek
    exact ⟨fun he => absurd he hc, fun _ => hk₀⟩

theorem findJob_append_left {jobs₁ jobs₂ : List TransferJob} {id : Nat}
    {j : TransferJob} (h : findJob jobs₁ id = some j) :
    findJob (jobs₁ ++ jobs₂) id = some j := by
  induction jobs₁ with
  | nil => simp [findJob] at h
  | cons k rest ih =>
    rw [List.cons_append]
    unfold findJob at h ⊢
    split at h
    · next hc => rw [if_pos hc]; exact h
    · next hc => rw [if_neg hc]; exact ih h

theorem findJob_append_fresh {jobs₁ jobs₂ : List TransferJob} {id : Nat}
    (h : ∀ k ∈ jobs₁, k.id ≠ id) :
    findJob (jobs₁ ++ jobs₂) id = findJob jobs₂ id := by
  induction jobs₁ with
  | nil => rfl
  | cons k rest ih =>
    rw [List.cons_append]
    show (if k.id = id then some k else findJob (rest ++ jobs₂) id) = findJob jobs₂ id
    rw [if_neg (h k (List.mem_cons_self _ _))]
    exact ih fun a ha => h a (List.mem_cons_of_mem _ ha)

/-! ### Field computations for the `TransferJob` mutators -/

@[simp] theorem start_id (j : TransferJob) (now : Nat) : (j.start now).id = j.id := rfl

@[simp] theorem start_status (j : TransferJob) (now : Nat) :
    (j.start now).status = .running := rfl

@[simp] theorem start_tb (j : TransferJob) (now : Nat) :
    (j.start now).transferredBytes = j.transferredBytes := rfl

@[simp] theorem start_fs (j : TransferJob) (now : Nat) :
    (j.start now).fileSize = j.fileSize := rfl

@[simp] theorem start_error (j : TransferJob) (now : Nat) :
    (j.start now).error = j.error := rfl

@[simp] theorem complete_id (j : TransferJob) (now : Nat) :
    (j.complete now).id = j.id := rfl

@[simp] theorem complete_status (j : TransferJob) (now : Nat) :
    (j.complete now).status = .completed := rfl

@[simp] theorem complete_tb (j : TransferJob) (now : Nat) :
    (j.complete now).transferredBytes = j.fileSize := rfl

@[simp] theorem complete_fs (j : TransferJob) (now : Nat) :
    (j.complete now).fileSize = j.fileSize := rfl

@[simp] theorem fail_id (j : TransferJob) (now : Nat) (msg : String) :
    (j.fail now msg).id = j.id := rfl

@[simp] theorem fail_status (j : TransferJob) (now : Nat) (msg : String) :
    (j.fail now msg).status = .failed := rfl

@[simp] theorem fail_tb (j : TransferJob) (now : Nat) (msg : String) :
    (j.fail now msg).transferredBytes = j.transferredBytes := rfl

@[simp] theorem fail_fs (j : TransferJob) (now : Nat) (msg : String) :
    (j.fail now msg).fileSize = j.fileSize := rfl

@[simp] theorem fail_error (j : TransferJob) (now : Nat) (msg : String) :
    (j.fail now msg).error = some msg := rfl

@[simp] theorem cancel_id (j : TransferJob) (now : Nat) : (j.cancel now).id = j.id := rfl

@[simp] theorem cancel_status (j : TransferJob) (now : Nat) :
    (j.cancel now).status = .cancelled := rfl

@[simp] theorem cancel_tb (j : TransferJob) (now : Nat) :
    (j.cancel now).transferredBytes = j.transferredBytes := rfl

@[simp] theorem cancel_fs (j : TransferJob) (now : Nat) :
    (j.cancel now).fileSize = j.fileSize := rfl

@[simp] theorem updateProgress_id (j : TransferJob) (tb total sp : Rat) :
    (j.updateProgress tb total sp).id = j.id := rfl

@[simp] theorem updateProgress_status (j : TransferJob) (tb total sp : Rat) :
    (j.updateProgress tb total sp).status = j.status := rfl

theorem start_progress_nonneg (j : TransferJob) (now : Nat)
    (h : 0 ≤ j.transferredBytes) : 0 ≤ (j.start now).progress :=
  updateProgress_progress_nonneg _ _ _ h

theorem start_progress_le (j : TransferJob) (now : Nat)
    (h : j.transferredBytes ≤ j.fileSize) : (j.start now).progress ≤ 100 :=
  updateProgress_progress_le _ _ h

theorem complete_progress_nonneg (j : TransferJob) (now : Nat)
    (h : 0 ≤ j.fileSize) : 0 ≤ (j.complete now).progress :=
  updateProgress_progress_nonneg _ _ _ h

theorem complete_progress_le (j : TransferJob) (now : Nat) :
    (j.complete now).progress ≤ 100 :=
  updateProgress_progress_le _ _ le_rfl

theorem fail_progress_nonneg (j : TransferJob) (now : Nat) (msg : String)
    (h : 0 ≤ j.transferredBytes) : 0 ≤ (j.fail now msg).progress :=
  updateProgress_progress_nonneg _ _ _ h

theorem fail_progress_le (j : TransferJob) (now : Nat) (msg : String)
    (h : j.transferredBytes ≤ j.fileSize) : (j.fail now msg).progress ≤ 100 :=
  updateProgress_progress_le _ _ h

theorem cancel_progress_nonneg (j : TransferJob) (now : Nat)
    (h : 0 ≤ j.transferredBytes) : 0 ≤ (j.cancel now).progress :=
  updateProgress_progress_nonneg _ _ _ h

theorem cancel_progress_le (j : TransferJob) (now : Nat)
    (h : j.transferredBytes ≤ j.fileSize) : (j.cancel now).progress ≤ 100 :=
  updateProgress_progress_le _ _ h

/-! ### Unfolding equations for the drain loop -/

theorem drainAux_nil (s : EngineState) (now : Nat) : drainAux [] s now = s := rfl

theorem drainAux_cons_some {s : EngineState} {id : Nat} {rest : List Nat}
    {now : Nat} {j : TransferJob}
    (hcap : s.activeTransfers.length < maxConcurrentTransfers)
    (hj : findJob s.jobs id = some j) :
    drainAux (id :: rest) s now =
      drainAux rest
        { jobs := writeJob s.jobs (j.start now)
          transferQueue := rest
          activeTransfers := s.activeTransfers ++ [id]
          pipes := s.pipes ++ [id]
          db := dbUpdateFromJob s.db (j.start now)
          nextId := s.nextId } now := by
  conv_lhs => unfold drainAux
  rw [if_pos hcap, hj]

theorem drainAux_cons_none {s : EngineState} {id : Nat} {rest : List Nat}
    {now : Nat} (hcap : s.activeTransfers.length < maxConcurrentTransfers)
    (hj : findJob s.jobs id = none) :
    drainAux (id :: rest) s now = s := by
  unfold drainAux
  rw [if_pos hcap, hj]

theorem drainAux_cons_stuck {s : EngineState} {id : Nat} {rest : List Nat}
    {now : Nat} (hcap : ¬ s.activeTransfers.length < maxConcurrentTransfers) :
    drainAux (id :: rest) s now = s := by
  unfold drainAux
  rw [if_neg hcap]

/-- What one drain does to the bookkeeping lists: some prefix of the pending
queue moves, in order, to the end of both the active set and the pipe set. -/
theorem drainAux_take (q : List Nat) (s : EngineState) (now : Nat)
    (hq : s.transferQueue = q) :
    ∃ n, (drainAux q s now).transferQueue = q.drop n ∧
      (drainAux q s now).activeTransfers = s.activeTransfers ++ q.take n ∧
      (drainAux q s now).pipes = s.pipes ++ q.take n ∧
      (drainAux q s now).nextId = s.nextId := by
  induction q generalizing s with
  | nil => exact ⟨0, by simp [drainAux_nil, hq]⟩
  | cons id rest ih =>
    by_cases hcap : s.activeTransfers.length < maxConcurrentTransfers
    · rcases hj : findJob s.jobs id with _ | j
      · refine ⟨0, ?_⟩
        rw [drainAux_cons_none hcap hj]
        simp [hq]
      · rw [drainAux_cons_some hcap hj]
        obtain ⟨n, h1, h2, h3, h4⟩ :=
          ih { jobs := writeJob s.jobs (j.start now)
               transferQueue := rest
               activeTransfers := s.activeTransfers ++ [id]
               pipes := s.pipes ++ [id]
               db := dbUpdateFromJob s.db (j.start now)
               nextId := s.nextId } rfl
        refine ⟨n + 1, ?_, ?_, ?_, ?_⟩
        · simpa using h1
        · rw [h2]
          simp
        · rw [h3]
          simp
        · simpa using h4
    · refine ⟨0, ?_⟩
      rw [drainAux_cons_stuck hcap]
      simp [hq]

/-- A drain preserves the engine invariant; moreover, when it leaves the
queue non-empty it is because the active set is full. -/
theorem drainAux_inv (q : List Nat) (s : EngineState) (now : Nat)
    (hq : s.transferQueue = q) (hInv : Inv s) :
    Inv (drainAux q s now) ∧
      ((drainAux q s now).transferQueue ≠ [] →
        maxConcurrentTransfers ≤ (drainAux q s now).activeTransfers.length) := by
  induction q generalizing s with
  | nil =>
    rw [drainAux_nil]
    exact ⟨hInv, fun h => absurd hq h⟩
  | cons id rest ih =>
    have hmem : id ∈ s.transferQueue := by
      rw [hq]; exact List.mem_cons_self _ _
    by_cases hcap : s.activeTransfers.length < maxConcurrentTransfers
    · rcases hj : findJob s.jobs id with _ | j
      · obtain ⟨jq, hfind, _⟩ := hInv.queueJob id hmem
        rw [hj] at hfind
        cases hfind
      · obtain ⟨jq, hfind, hqd⟩ := hInv.queueJob id hmem
        rw [hj] at hfind
        cases hfind
        obtain ⟨hjmem, hjid⟩ := findJob_some hj
        have hqn : (id :: rest).Nodup := hq ▸ hInv.queueNodup
        have hidrest : id ∉ rest := (List.nodup_cons.mp hqn).1
        have hrestnd : rest.Nodup := (List.nodup_cons.mp hqn).2
        have hqa := hInv.queueActive id hmem
        have hqp := hInv.queuePipes id hmem
        rw [drainAux_cons_some hcap hj]
        refine ih _ rfl ?_
        refine
          { jobsNodup := ?_, queueNodup := hrestnd, jobsLt := ?_, queueJob := ?_,
            activeJob := ?_, pipesJob := ?_, runningActive := ?_, activePipes := ?_,
            queueActive := ?_, queuePipes := ?_, activeLen := ?_,
            progLB := ?_, progUB := ?_, tbLB := ?_, tbUB := ?_, fsLB := ?_ }
        · show ((writeJob s.jobs (j.start now)).map (·.id)).Nodup
          rw [writeJob_map_id]
          exact hInv.jobsNodup
        · intro k hk
          obtain ⟨heq, hne⟩ := mem_writeJob hk
          by_cases hcid : k.id = (j.start now).id
          · rw [heq hcid]
            show (j.start now).id < s.nextId
            rw [start_id]
            exact hInv.jobsLt j hjmem
          · exact hInv.jobsLt k (hne hcid)
        · intro id' hid'
          obtain ⟨jq', hf', hs'⟩ :=
            hInv.queueJob id' (by rw [hq]; exact List.mem_cons_of_mem _ hid')
          have hne : id' ≠ id := fun he => hidrest (he ▸ hid')
          refine ⟨jq', ?_, hs'⟩
          show findJob (writeJob s.jobs (j.start now)) id' = some jq'
          rw [findJob_writeJob, if_neg (by rw [start_id, hjid]; exact hne)]
          exact hf'
        · intro id' hid'
          rcases List.mem_append.mp hid' with h | h
          · obtain ⟨jr, hf, hs⟩ := hInv.activeJob id' h
            have hne : id' ≠ id := fun he => hqa (he ▸ h)
            refine ⟨jr, ?_, hs⟩
            show findJob (writeJob s.jobs (j.start now)) id' = some jr
            rw [findJob_writeJob, if_neg (by rw [start_id, hjid]; exact hne)]
            exact hf
          · have he : id' = id := by simpa using h
            subst he
            refine ⟨j.start now, ?_, by rw [start_status]⟩
            show findJob (writeJob s.jobs (j.start now)) id' = some (j.start now)
            rw [findJob_writeJob, if_pos (by rw [start_id, hjid])]
            rw [start_id, hjid, hj]
            rfl
        · intro id' hid'
          rcases List.mem_append.mp hid' with h | h
          · obtain ⟨jr, hf, hs⟩ := hInv.pipesJob id' h
            have hne : id' ≠ id := fun he => hqp (he ▸ h)
            refine ⟨jr, ?_, hs⟩
            show findJob (writeJob s.jobs (j.start now)) id' = some jr
            rw [findJob_writeJob, if_neg (by rw [start_id, hjid]; exact hne)]
            exact hf
          · have he : id' = id := by simpa using h
            subst he
            refine ⟨j.start now, ?_, Or.inl (by rw [start_status])⟩
            show findJob (writeJob s.jobs (j.start now)) id' = some (j.start now)
            rw [findJob_writeJob, if_pos (by rw [start_id, hjid])]
            rw [start_id, hjid, hj]
            rfl
        · intro k hk hrun
          obtain ⟨heq, hne⟩ := mem_writeJob hk
          by_cases hcid : k.id = (j.start now).id
          · rw [heq hcid]
            show (j.start now).id ∈ s.activeTransfers ++ [id]
            rw [start_id, hjid]
            exact List.mem_append_right _ (List.mem_singleton.mpr rfl)
          · exact List.mem_append_left _ (hInv.runningActive k (hne hcid) hrun)
        · intro id' hid'
          rcases List.mem_append.mp hid' with h | h
          · exact List.mem_append_left _ (hInv.activePipes id' h)
          · exact List.mem_append_right _ h
        · intro id' hid' hc
          rcases List.mem_append.mp hc with h | h
          · exact hInv.queueActive id'
              (by rw [hq]; exact List.mem_cons_of_mem _ hid') h
          · exact hidrest ((List.mem_singleton.mp h) ▸ hid')
        · intro id' hid' hc
          rcases List.mem_append.mp hc with h | h
          · exact hInv.queuePipes id'
              (by rw [hq]; exact List.mem_cons_of_mem _ hid') h
          · exact hidrest ((List.mem_singleton.mp h) ▸ hid')
        · show (s.activeTransfers ++ [id]).length ≤ maxConcurrentTransfers
          rw [List.length_append, List.length_singleton]
          omega
        · intro k hk
          obtain ⟨heq, hne⟩ := mem_writeJob hk
          by_cases hcid : k.id = (j.start now).id
          · rw [heq hcid]
            exact start_progress_nonneg j now (hInv.tbLB j hjmem)
          · exact hInv.progLB k (hne hcid)
        · intro k hk
          obtain ⟨heq, hne⟩ := mem_writeJob hk
          by_cases hcid : k.id = (j.start now).id
          · rw [heq hcid]
            exact start_progress_le j now (hInv.tbUB j hjmem)
          · exact hInv.progUB k (hne hcid)
        · intro k hk
          obtain ⟨heq, hne⟩ := mem_writeJob hk
          by_cases hcid : k.id = (j.start now).id
          · rw [heq hcid, start_tb]
            exact hInv.tbLB j hjmem
          · exact hInv.tbLB k (hne hcid)
        · intro k hk
          obtain ⟨heq, hne⟩ := mem_writeJob hk
          by_cases hcid : k.id = (j.start now).id
          · rw [heq hcid, start_tb, start_fs]
            exact hInv.tbUB j hjmem
          · exact hInv.tbUB k (hne hcid)
        · intro k hk
          obtain ⟨heq, hne⟩ := mem_writeJob hk
          by_cases hcid : k.id = (j.start now).id
          · rw [heq hcid, start_fs]
            exact hInv.fsLB j hjmem
          · exact hInv.fsLB k (hne hcid)
    · rw [drainAux_cons_stuck hcap]
      exact ⟨hInv, fun _ => Nat.le_of_not_lt hcap⟩

/-- A drain changes a job object only by `start`ing it (and only jobs whose id
was pulled from the queue). -/
theorem drainAux_lookup (q : List Nat) (s : EngineState) (now : Nat)
    (hnd : q.Nodup) (id : Nat) :
    findJob (drainAux q s now).jobs id = findJob s.jobs id ∨
      (id ∈ q ∧ ∃ j, findJob s.jobs id = some j ∧
        findJob (drainAux q s now).jobs id = some (j.start now)) := by
  induction q generalizing s with
  | nil => left; rfl
  | cons id0 rest ih =>
    by_cases hcap : s.activeTransfers.length < maxConcurrentTransfers
    · rcases hj : findJob s.jobs id0 with _ | j
      · left
        rw [drainAux_cons_none hcap hj]
      · obtain ⟨hjmem, hjid⟩ := findJob_some hj
        have hid0rest : id0 ∉ rest := (List.nodup_cons.mp hnd).1
        have hrestnd : rest.Nodup := (List.nodup_cons.mp hnd).2
        rw [drainAux_cons_some hcap hj]
        have hwj : findJob (writeJob s.jobs (j.start now)) id =
            if id = (j.start now).id
            then (findJob s.jobs (j.start now).id).map (fun _ => j.start now)
            else findJob s.jobs id := findJob_writeJob _ _ _
        have ihS := ih
          { jobs := writeJob s.jobs (j.start now)
            transferQueue := rest
            activeTransfers := s.activeTransfers ++ [id0]
            pipes := s.pipes ++ [id0]
            db := dbUpdateFromJob s.db (j.start now)
            nextId := s.nextId } hrestnd
        by_cases hid : id = id0
        · subst hid
          have hS : findJob (writeJob s.jobs (j.start now)) id = some (j.start now) := by
            rw [hwj, if_pos (by rw [start_id, hjid])]
            rw [start_id, hjid, hj]
            rfl
          rcases ihS with hunch | ⟨hmr, _, _, _⟩
          · right
            exact ⟨List.mem_cons_self _ _, j, hj, by rw [hunch]; exact hS⟩
          · exact absurd hmr hid0rest
        · have hS : findJob (writeJob s.jobs (j.start now)) id = findJob s.jobs id := by
            rw [hwj, if_neg (by rw [start_id, hjid]; exact hid)]
          rcases ihS with hunch | ⟨hmr, j', hf', hpost⟩
          · left
            rw [hunch]
            exact hS
          · right
            rw [hS] at hf'
            exact ⟨List.mem_cons_of_mem _ hmr, j', hf', hpost⟩
    · left
      rw [drainAux_cons_stuck hcap]

/-- A drain preserves every persisted row's identity, owner and file size, and
keeps its status within `{queued, running}` if it was there (the only write a
drain issues is the `running` snapshot of a started job). -/
theorem drainAux_db (q : List Nat) (s : EngineState) (now : Nat)
    {rid uid : Nat} {fs : Rat}
    (h : ∃ r ∈ s.db, r.id = rid ∧ r.user_id = uid ∧ r.file_size = fs ∧
      (r.status = .queued ∨ r.status = .running)) :
    ∃ r ∈ (drainAux q s now).db, r.id = rid ∧ r.user_id = uid ∧
      r.file_size = fs ∧ (r.status = .queued ∨ r.status = .running) := by
  induction q generalizing s with
  | nil => exact h
  | cons id0 rest ih =>
    by_cases hcap : s.activeTransfers.length < maxConcurrentTransfers
    · rcases hj : findJob s.jobs id0 with _ | j
      · rw [drainAux_cons_none hcap hj]
        exact h
      · rw [drainAux_cons_some hcap hj]
        apply ih
        obtain ⟨r, hr, h1, h2, h3, h4⟩ := h
        by_cases hc : r.id = (j.start now).id
        · refine ⟨_, List.mem_map_of_mem _ hr, ?_⟩
          rw [if_pos hc]
          exact ⟨h1, h2, h3, Or.inr (by rw [start_status])⟩
        · refine ⟨_, List.mem_map_of_mem _ hr, ?_⟩
          rw [if_neg hc]
          exact ⟨h1, h2, h3, h4⟩
    · rw [drainAux_cons_stuck hcap]
      exact h

/-! ### Unfolding equations for the engine operations -/

theorem createTransfer_ok {accounts : List CloudAccount} {probe : Option Nat}
    {s : EngineState} {opts : CreateOptions} {now : Nat} {s' : EngineState}
    {r : CreateResult} (h : createTransfer accounts probe s opts now = .ok (s', r)) :
    s' = processQueue (enqueueState s opts ((probe.getD 0 : Nat) : Rat) now) now ∧
      r = { transferId := s.nextId, status := "queued" } := by
  unfold createTransfer at h
  split at h
  · split at h
    · exact absurd h (by simp)
    · rw [Except.ok.injEq, Prod.mk.injEq] at h
      exact ⟨h.1.symm, h.2.symm⟩
  · exact absurd h (by simp)

theorem processComplete_some {s : EngineState} {id : Nat} {now : Nat}
    {j : TransferJob} (hj : lookupJob s id = some j) :
    processComplete s id now =
      processQueue
        { jobs := writeJob s.jobs (j.complete now)
          transferQueue := s.transferQueue
          activeTransfers := s.activeTransfers.filter (fun a => a ≠ id)
          pipes := s.pipes.filter (fun a => a ≠ id)
          db := dbUpdateFromJob s.db (j.complete now)
          nextId := s.nextId } now := by
  conv_lhs => unfold processComplete
  rw [hj]

theorem processFail_some {s : EngineState} {id : Nat} {msg : String} {now : Nat}
    {j : TransferJob} (hj : lookupJob s id = some j) :
    processFail s id msg now =
      processQueue
        { jobs := writeJob s.jobs (j.fail now msg)
          transferQueue := s.transferQueue
          activeTransfers := s.activeTransfers.filter (fun a => a ≠ id)
          pipes := s.pipes.filter (fun a => a ≠ id)
          db := dbUpdateFromJob s.db (j.fail now msg)
          nextId := s.nextId } now := by
  conv_lhs => unfold processFail
  rw [hj]

theorem pipelineProgress_some {s : EngineState} {id : Nat} {phase : Phase}
    {percentage speed : Rat} {j : TransferJob} (hj : lookupJob s id = some j) :
    pipelineProgress s id phase percentage speed =
      { s with
        jobs := writeJob s.jobs
          (j.updateProgress
            (((overallProgress phase percentage : Int) : Rat) * j.fileSize / 100)
            j.fileSize speed)
        db := dbUpdateFromJob s.db
          (j.updateProgress
            (((overallProgress phase percentage : Int) : Rat) * j.fileSize / 100)
            j.fileSize speed) } := by
  conv_lhs => unfold pipelineProgress
  rw [hj]

theorem cancelTransfer_active {s : EngineState} {transferId userId now : Nat}
    {j : TransferJob} (hmem : transferId ∈ s.activeTransfers)
    (hj : lookupJob s transferId = some j) :
    cancelTransfer s transferId userId now =
      ({ s with
          jobs := writeJob s.jobs (j.cancel now)
          activeTransfers := s.activeTransfers.filter (fun a => a ≠ transferId)
          db := dbUpdateFromJob s.db (j.cancel now) },
       { success := true, message := "Transfer cancelled" }) := by
  conv_lhs => unfold cancelTransfer
  rw [if_pos hmem, hj]

theorem cancelTransfer_inactive {s : EngineState} {transferId userId now : Nat}
    (hmem : transferId ∉ s.activeTransfers) :
    cancelTransfer s transferId userId now =
      ({ s with
          db := s.db.map fun r =>
            if r.id = transferId then
              { r with status := .cancelled, completed_at := some now }
            else r },
       { success := true, message := "Transfer cancelled" }) := by
  conv_lhs => unfold cancelTransfer
  rw [if_neg hmem]

theorem processComplete_none {s : EngineState} {id : Nat} {now : Nat}
    (hj : lookupJob s id = none) : processComplete s id now = s := by
  conv_lhs => unfold processComplete
  rw [hj]

theorem processFail_none {s : EngineState} {id : Nat} {msg : String} {now : Nat}
    (hj : lookupJob s id = none) : processFail s id msg now = s := by
  conv_lhs => unfold processFail
  rw [hj]

theorem pipelineProgress_none {s : EngineState} {id : Nat} {phase : Phase}
    {percentage speed : Rat} (hj : lookupJob s id = none) :
    pipelineProgress s id phase percentage speed = s := by
  conv_lhs => unfold pipelineProgress
  rw [hj]

/-! ### Invariant preservation -/

theorem inv_init : Inv initState := by
  constructor <;> simp [initState, maxConcurrentTransfers]

theorem inv_processQueue {s : EngineState} (now : Nat) (hInv : Inv s) :
    Inv (processQueue s now) ∧
      ((processQueue s now).transferQueue ≠ [] →
        maxConcurrentTransfers ≤ (processQueue s now).activeTransfers.length) :=
  drainAux_inv s.transferQueue s now rfl hInv

theorem inv_full_drained {t : EngineState} (hInv : Inv t)
    (hfull : t.transferQueue ≠ [] →
      maxConcurrentTransfers ≤ t.activeTransfers.length) :
    Drained t := by
  intro hne
  have hlen := hfull hne
  have hpos : 0 < t.activeTransfers.length := by
    unfold maxConcurrentTransfers at hlen
    omega
  obtain ⟨a, ha⟩ := List.exists_mem_of_length_pos hpos
  exact List.ne_nil_of_mem (hInv.activePipes a ha)

theorem inv_enqueueState {s : EngineState} (opts : CreateOptions) {fileSize : Rat}
    (now : Nat) (hfs : 0 ≤ fileSize) (hInv : Inv s) :
    Inv (enqueueState s opts fileSize now) := by
  have hfreshJobs : ∀ k ∈ s.jobs, k.id ≠ s.nextId :=
    fun k hk => Nat.ne_of_lt (hInv.jobsLt k hk)
  have hfreshQueue : s.nextId ∉ s.transferQueue := by
    intro hmem
    obtain ⟨j, hf, _⟩ := hInv.queueJob _ hmem
    obtain ⟨hjm, hjid⟩ := findJob_some hf
    exact Nat.lt_irrefl _ (hjid ▸ hInv.jobsLt j hjm)
  have hfreshActive : s.nextId ∉ s.activeTransfers := by
    intro hmem
    obtain ⟨j, hf, _⟩ := hInv.activeJob _ hmem
    obtain ⟨hjm, hjid⟩ := findJob_some hf
    exact Nat.lt_irrefl _ (hjid ▸ hInv.jobsLt j hjm)
  have hfreshPipes : s.nextId ∉ s.pipes := by
    intro hmem
    obtain ⟨j, hf, _⟩ := hInv.pipesJob _ hmem
    obtain ⟨hjm, hjid⟩ := findJob_some hf
    exact Nat.lt_irrefl _ (hjid ▸ hInv.jobsLt j hjm)
  refine
    { jobsNodup := ?_, queueNodup := ?_, jobsLt := ?_, queueJob := ?_,
      activeJob := ?_, pipesJob := ?_, runningActive := ?_,
      activePipes := hInv.activePipes, queueActive := ?_, queuePipes := ?_,
      activeLen := hInv.activeLen, progLB := ?_, progUB := ?_, tbLB := ?_,
      tbUB := ?_, fsLB := ?_ }
  · show ((s.jobs ++ [newTransferJob opts s.nextId fileSize now]).map (·.id)).Nodup
    rw [List.map_append]
    refine List.Nodup.append hInv.jobsNodup (List.nodup_singleton _) ?_
    intro a ha hb
    rcases List.mem_map.mp ha with ⟨k, hk, hkid⟩
    have : a = s.nextId := by simpa [newTransferJob] using hb
    exact hfreshJobs k hk (by rw [hkid, this])
  · show (s.transferQueue ++ [s.nextId]).Nodup
    refine List.Nodup.append hInv.queueNodup (List.nodup_singleton _) ?_
    intro a ha hb
    have : a = s.nextId := by simpa using hb
    exact hfreshQueue (this ▸ ha)
  · intro k hk
    rcases List.mem_append.mp hk with h | h
    · exact Nat.lt_succ_of_lt (hInv.jobsLt k h)
    · have : k = newTransferJob opts s.nextId fileSize now := by simpa using h
      rw [this]
      exact Nat.lt_succ_self _
  · intro id' hid'
    rcases List.mem_append.mp hid' with h | h
    · obtain ⟨j, hf, hst⟩ := hInv.queueJob id' h
      exact ⟨j, findJob_append_left hf, hst⟩
    · have he : id' = s.nextId := by simpa using h
      subst he
      refine ⟨newTransferJob opts s.nextId fileSize now, ?_, rfl⟩
      show findJob (s.jobs ++ [newTransferJob opts s.nextId fileSize now]) s.nextId = _
      rw [findJob_append_fresh hfreshJobs]
      simp [findJob, newTransferJob]
  · intro id' hid'
    obtain ⟨j, hf, hst⟩ := hInv.activeJob id' hid'
    exact ⟨j, findJob_append_left hf, hst⟩
  · intro id' hid'
    obtain ⟨j, hf, hst⟩ := hInv.pipesJob id' hid'
    exact ⟨j, findJob_append_left hf, hst⟩
  · intro k hk hrun
    rcases List.mem_append.mp hk with h | h
    · exact hInv.runningActive k h hrun
    · have : k = newTransferJob opts s.nextId fileSize now := by simpa using h
      rw [this] at hrun
      simp [newTransferJob] at hrun
  · intro id' hid'
    rcases List.mem_append.mp hid' with h | h
    · exact hInv.queueActive id' h
    · have he : id' = s.nextId := by simpa using h
      exact he ▸ hfreshActive
  · intro id' hid'
    rcases List.mem_append.mp hid' with h | h
    · exact hInv.queuePipes id' h
    · have he : id' = s.nextId := by simpa using h
      exact he ▸ hfreshPipes
  · intro k hk
    rcases List.mem_append.mp hk with h | h
    · exact hInv.progLB k h
    · have : k = newTransferJob opts s.nextId fileSize now := by simpa using h
      rw [this]
      simp [newTransferJob]
  · intro k hk
    rcases List.mem_append.mp hk with h | h
    · exact hInv.progUB k h
    · have : k = newTransferJob opts s.nextId fileSize now := by simpa using h
      rw [this]
      simp [newTransferJob]
  · intro k hk
    rcases List.mem_append.mp hk with h | h
    · exact hInv.tbLB k h
    · have : k = newTransferJob opts s.nextId fileSize now := by simpa using h
      rw [this]
      simp [newTransferJob]
  · intro k hk
    rcases List.mem_append.mp hk with h | h
    · exact hInv.tbUB k h
    · have : k = newTransferJob opts s.nextId fileSize now := by simpa using h
      rw [this]
      simpa [newTransferJob] using hfs
  · intro k hk
    rcases List.mem_append.mp hk with h | h
    · exact hInv.fsLB k h
    · have : k = newTransferJob opts s.nextId fileSize now := by simpa using h
      rw [this]
      simpa [newTransferJob] using hfs

theorem inv_createTransfer {accounts : List CloudAccount} {probe : Option Nat}
    {s : EngineState} {opts : CreateOptions} {now : Nat} {s' : EngineState}
    {r : CreateResult}
    (h : createTransfer accounts probe s opts now = .ok (s', r)) (hInv : Inv s) :
    Inv s' ∧ Drained s' := by
  obtain ⟨hs', _⟩ := createTransfer_ok h
  subst hs'
  have hE := inv_enqueueState opts now
    (show (0 : Rat) ≤ ((probe.getD 0 : Nat) : Rat) from Nat.cast_nonneg _) hInv
  obtain ⟨hI, hF⟩ := inv_processQueue _ hE
  exact ⟨hI, inv_full_drained hI hF⟩

/-- Invariant of the intermediate state of a settling pipeline (terminal
write, eviction from the active and pipe sets), before its final drain. -/
theorem inv_settle {s : EngineState} {id : Nat} {j j' : TransferJob}
    (hj : findJob s.jobs id = some j) (hpipe : id ∈ s.pipes)
    (hid : j'.id = j.id)
    (hnotrun : j'.status ≠ .running)
    (hp0 : 0 ≤ j'.progress) (hp1 : j'.progress ≤ 100)
    (ht0 : 0 ≤ j'.transferredBytes) (ht1 : j'.transferredBytes ≤ j'.fileSize)
    (hf0 : 0 ≤ j'.fileSize)
    (hInv : Inv s) :
    Inv { jobs := writeJob s.jobs j'
          transferQueue := s.transferQueue
          activeTransfers := s.activeTransfers.filter (fun a => a ≠ id)
          pipes := s.pipes.filter (fun a => a ≠ id)
          db := dbUpdateFromJob s.db j'
          nextId := s.nextId } := by
  obtain ⟨hjmem, hjid⟩ := findJob_some hj
  have hidq : id ∉ s.transferQueue := fun hq => hInv.queuePipes id hq hpipe
  refine
    { jobsNodup := ?_, queueNodup := hInv.queueNodup, jobsLt := ?_, queueJob := ?_,
      activeJob := ?_, pipesJob := ?_, runningActive := ?_, activePipes := ?_,
      queueActive := ?_, queuePipes := ?_, activeLen := ?_,
      progLB := ?_, progUB := ?_, tbLB := ?_, tbUB := ?_, fsLB := ?_ }
  · show ((writeJob s.jobs j').map (·.id)).Nodup
    rw [writeJob_map_id]
    exact hInv.jobsNodup
  · intro k hk
    obtain ⟨heq, hne⟩ := mem_writeJob hk
    by_cases hcid : k.id = j'.id
    · rw [heq hcid, hid, hjid]
      exact hjid ▸ hInv.jobsLt j hjmem
    · exact hInv.jobsLt k (hne hcid)
  · intro id' hid'
    obtain ⟨jq', hf', hs'⟩ := hInv.queueJob id' hid'
    have hne : id' ≠ id := fun he => hidq (he ▸ hid')
    refine ⟨jq', ?_, hs'⟩
    show findJob (writeJob s.jobs j') id' = some jq'
    rw [findJob_writeJob, if_neg (by rw [hid, hjid]; exact hne)]
    exact hf'
  · intro id' hid'
    rw [List.mem_filter] at hid'
    obtain ⟨hact, hneb⟩ := hid'
    have hne : id' ≠ id := by simpa using hneb
    obtain ⟨jr, hf, hs⟩ := hInv.activeJob id' hact
    refine ⟨jr, ?_, hs⟩
    show findJob (writeJob s.jobs j') id' = some jr
    rw [findJob_writeJob, if_neg (by rw [hid, hjid]; exact hne)]
    exact hf
  · intro id' hid'
    rw [List.mem_filter] at hid'
    obtain ⟨hact, hneb⟩ := hid'
    have hne : id' ≠ id := by simpa using hneb
    obtain ⟨jr, hf, hs⟩ := hInv.pipesJob id' hact
    refine ⟨jr, ?_, hs⟩
    show findJob (writeJob s.jobs j') id' = some jr
    rw [findJob_writeJob, if_neg (by rw [hid, hjid]; exact hne)]
    exact hf
  · intro k hk hrun
    obtain ⟨heq, hne⟩ := mem_writeJob hk
    by_cases hcid : k.id = j'.id
    · rw [heq hcid] at hrun
      exact absurd hrun hnotrun
    · have hkact := hInv.runningActive k (hne hcid) hrun
      rw [List.mem_filter]
      refine ⟨hkact, ?_⟩
      have : k.id ≠ id := by
        rw [hid, hjid] at hcid
        exact hcid
      simpa using this
  · intro id' hid'
    rw [List.mem_filter] at hid' ⊢
    exact ⟨hInv.activePipes id' hid'.1, hid'.2⟩
  · intro id' hid' hc
    rw [List.mem_filter] at hc
    exact hInv.queueActive id' hid' hc.1
  · intro id' hid' hc
    rw [List.mem_filter] at hc
    exact hInv.queuePipes id' hid' hc.1
  · exact le_trans (List.length_filter_le _ _) hInv.activeLen
  · intro k hk
    obtain ⟨heq, hne⟩ := mem_writeJob hk
    by_cases hcid : k.id = j'.id
    · rw [heq hcid]; exact hp0
    · exact hInv.progLB k (hne hcid)
  · intro k hk
    obtain ⟨heq, hne⟩ := mem_writeJob hk
    by_cases hcid : k.id = j'.id
    · rw [heq hcid]; exact hp1
    · exact hInv.progUB k (hne hcid)
  · intro k hk
    obtain ⟨heq, hne⟩ := mem_writeJob hk
    by_cases hcid : k.id = j'.id
    · rw [heq hcid]; exact ht0
    · exact hInv.tbLB k (hne hcid)
  · intro k hk
    obtain ⟨heq, hne⟩ := mem_writeJob hk
    by_cases hcid : k.id = j'.id
    · rw [heq hcid]; exact ht1
    · exact hInv.tbUB k (hne hcid)
  · intro k hk
    obtain ⟨heq, hne⟩ := mem_writeJob hk
    by_cases hcid : k.id = j'.id
    · rw [heq hcid]; exact hf0
    · exact hInv.fsLB k (hne hcid)

theorem inv_processComplete {s : EngineState} {id : Nat} (now : Nat)
    (hpipe : id ∈ s.pipes) (hInv : Inv s) :
    Inv (processComplete s id now) ∧ Drained (processComplete s id now) := by
  rcases hj : lookupJob s id with _ | j
  · obtain ⟨jp, hf, _⟩ := hInv.pipesJob id hpipe
    have hj' : findJob s.jobs id = none := hj
    rw [hj'] at hf
    cases hf
  · have hj' : findJob s.jobs id = some j := hj
    obtain ⟨hjmem, hjid⟩ := findJob_some hj'
    rw [processComplete_some hj]
    have hI := inv_settle hj' hpipe (complete_id j now) (by simp)
      (complete_progress_nonneg j now (hInv.fsLB j hjmem))
      (complete_progress_le j now)
      (by rw [complete_tb]; exact hInv.fsLB j hjmem)
      (by rw [complete_tb, complete_fs])
      (by rw [complete_fs]; exact hInv.fsLB j hjmem)
      hInv
    obtain ⟨hI', hF⟩ := inv_processQueue now hI
    exact ⟨hI', inv_full_drained hI' hF⟩

theorem inv_processFail {s : EngineState} {id : Nat} {msg : String} (now : Nat)
    (hpipe : id ∈ s.pipes) (hInv : Inv s) :
    Inv (processFail s id msg now) ∧ Drained (processFail s id msg now) := by
  rcases hj : lookupJob s id with _ | j
  · obtain ⟨jp, hf, _⟩ := hInv.pipesJob id hpipe
    have hj' : findJob s.jobs id = none := hj
    rw [hj'] at hf
    cases hf
  · have hj' : findJob s.jobs id = some j := hj
    obtain ⟨hjmem, hjid⟩ := findJob_some hj'
    rw [processFail_some hj]
    have hI := inv_settle hj' hpipe (fail_id j now msg) (by simp)
      (fail_progress_nonneg j now msg (hInv.tbLB j hjmem))
      (fail_progress_le j now msg (hInv.tbUB j hjmem))
      (by rw [fail_tb]; exact hInv.tbLB j hjmem)
      (by rw [fail_tb, fail_fs]; exact hInv.tbUB j hjmem)
      (by rw [fail_fs]; exact hInv.fsLB j hjmem)
      hInv
    obtain ⟨hI', hF⟩ := inv_processQueue now hI
    exact ⟨hI', inv_full_drained hI' hF⟩

theorem inv_pipelineProgress {s : EngineState} {id : Nat} {phase : Phase}
    {percentage speed : Rat} (h0 : 0 ≤ percentage) (h100 : percentage ≤ 100)
    (hInv : Inv s) (hD : Drained s) :
    Inv (pipelineProgress s id phase percentage speed) ∧
      Drained (pipelineProgress s id phase percentage speed) := by
  rcases hj : lookupJob s id with _ | j
  · rw [pipelineProgress_none hj]
    exact ⟨hInv, hD⟩
  · have hj' : findJob s.jobs id = some j := hj
    obtain ⟨hjmem, hjid⟩ := findJob_some hj'
    rw [pipelineProgress_some hj]
    have hov0 : (0 : Rat) ≤ ((overallProgress phase percentage : Int) : Rat) := by
      exact_mod_cast overallProgress_nonneg phase h0
    have hov100 : ((overallProgress phase percentage : Int) : Rat) ≤ 100 := by
      exact_mod_cast overallProgress_le phase h100
    set ov : Rat := ((overallProgress phase percentage : Int) : Rat) with hovdef
    set j' : TransferJob :=
      j.updateProgress (ov * j.fileSize / 100) j.fileSize speed with hjdef
    have hfs0 : 0 ≤ j.fileSize := hInv.fsLB j hjmem
    have ht0 : 0 ≤ ov * j.fileSize / 100 :=
      div_nonneg (mul_nonneg hov0 hfs0) (by norm_num)
    have ht1 : ov * j.fileSize / 100 ≤ j.fileSize := by
      rw [div_le_iff (show (0:Rat) < 100 by norm_num)]
      nlinarith
    have hj'id : j'.id = j.id := rfl
    have hj'st : j'.status = j.status := rfl
    have hj'tb : j'.transferredBytes = ov * j.fileSize / 100 := rfl
    have hj'fs : j'.fileSize = j.fileSize := rfl
    refine ⟨?_, hD⟩
    refine
      { jobsNodup := ?_, queueNodup := hInv.queueNodup, jobsLt := ?_,
        queueJob := ?_, activeJob := ?_, pipesJob := ?_, runningActive := ?_,
        activePipes := hInv.activePipes, queueActive := hInv.queueActive,
        queuePipes := hInv.queuePipes, activeLen := hInv.activeLen,
        progLB := ?_, progUB := ?_, tbLB := ?_, tbUB := ?_, fsLB := ?_ }
    · show ((writeJob s.jobs j').map (·.id)).Nodup
      rw [writeJob_map_id]
      exact hInv.jobsNodup
    · intro k hk
      obtain ⟨heq, hne⟩ := mem_writeJob hk
      by_cases hcid : k.id = j'.id
      · rw [heq hcid, hj'id]
        exact hInv.jobsLt j hjmem
      · exact hInv.jobsLt k (hne hcid)
    · intro id' hid'
      obtain ⟨jq', hf', hs'⟩ := hInv.queueJob id' hid'
      by_cases hne : id' = id
      · subst hne
        rw [hf'] at hj'
        cases hj'
        refine ⟨j', ?_, by rw [hj'st]; exact hs'⟩
        show findJob (writeJob s.jobs j') id' = some j'
        rw [findJob_writeJob, if_pos (by rw [hj'id, hjid])]
        rw [hj'id, hjid, hf']
        rfl
      · refine ⟨jq', ?_, hs'⟩
        show findJob (writeJob s.jobs j') id' = some jq'
        rw [findJob_writeJob, if_neg (by rw [hj'id, hjid]; exact hne)]
        exact hf'
    · intro id' hid'
      obtain ⟨jq', hf', hs'⟩ := hInv.activeJob id' hid'
      by_cases hne : id' = id
      · subst hne
        rw [hf'] at hj'
        cases hj'
        refine ⟨j', ?_, by rw [hj'st]; exact hs'⟩
        show findJob (writeJob s.jobs j') id' = some j'
        rw [findJob_writeJob, if_pos (by rw [hj'id, hjid])]
        rw [hj'id, hjid, hf']
        rfl
      · refine ⟨jq', ?_, hs'⟩
        show findJob (writeJob s.jobs j') id' = some jq'
        rw [findJob_writeJob, if_neg (by rw [hj'id, hjid]; exact hne)]
        exact hf'
    · intro id' hid'
      obtain ⟨jq', hf', hs'⟩ := hInv.pipesJob id' hid'
      by_cases hne : id' = id
      · subst hne
        rw [hf'] at hj'
        cases hj'
        refine ⟨j', ?_, by rw [hj'st]; exact hs'⟩
        show findJob (writeJob s.jobs j') id' = some j'
        rw [findJob_writeJob, if_pos (by rw [hj'id, hjid])]
        rw [hj'id, hjid, hf']
        rfl
      · refine ⟨jq', ?_, hs'⟩
        show findJob (writeJob s.jobs j') id' = some jq'
        rw [findJob_writeJob, if_neg (by rw [hj'id, hjid]; exact hne)]
        exact hf'
    · intro k hk hrun
      obtain ⟨heq, hne⟩ := mem_writeJob hk
      by_cases hcid : k.id = j'.id
      · rw [heq hcid] at hrun ⊢
        rw [hj'st] at hrun
        rw [hj'id]
        exact hInv.runningActive j hjmem hrun
      · exact hInv.runningActive k (hne hcid) hrun
    · intro k hk
      obtain ⟨heq, hne⟩ := mem_writeJob hk
      by_cases hcid : k.id = j'.id
      · rw [heq hcid]
        exact updateProgress_progress_nonneg _ _ _ ht0
      · exact hInv.progLB k (hne hcid)
    · intro k hk
      obtain ⟨heq, hne⟩ := mem_writeJob hk
      by_cases hcid : k.id = j'.id
      · rw [heq hcid]
        exact updateProgress_progress_le _ _ ht1
      · exact hInv.progUB k (hne hcid)
    · intro k hk
      obtain ⟨heq, hne⟩ := mem_writeJob hk
      by_cases hcid : k.id = j'.id
      · rw [heq hcid, hj'tb]
        exact ht0
      · exact hInv.tbLB k (hne hcid)
    · intro k hk
      obtain ⟨heq, hne⟩ := mem_writeJob hk
      by_cases hcid : k.id = j'.id
      · rw [heq hcid, hj'tb, hj'fs]
        exact ht1
      · exact hInv.tbUB k (hne hcid)
    · intro k hk
      obtain ⟨heq, hne⟩ := mem_writeJob hk
      by_cases hcid : k.id = j'.id
      · rw [heq hcid, hj'fs]
        exact hfs0
      · exact hInv.fsLB k (hne hcid)

theorem inv_cancelTransfer {s : EngineState} (transferId userId now : Nat)
    (hInv : Inv s) (hD : Drained s) :
    Inv (cancelTransfer s transferId userId now).1 ∧
      Drained (cancelTransfer s transferId userId now).1 := by
  by_cases hmem : transferId ∈ s.activeTransfers
  · obtain ⟨j, hf, hrun⟩ := hInv.activeJob _ hmem
    have hj : lookupJob s transferId = some j := hf
    obtain ⟨hjmem, hjid⟩ := findJob_some hf
    rw [cancelTransfer_active hmem hj]
    set j' : TransferJob := j.cancel now with hjdef
    have hj'id : j'.id = j.id := rfl
    have hidq : transferId ∉ s.transferQueue :=
      fun hq => hInv.queueActive transferId hq hmem
    refine ⟨?_, hD⟩
    refine
      { jobsNodup := ?_, queueNodup := hInv.queueNodup, jobsLt := ?_,
        queueJob := ?_, activeJob := ?_, pipesJob := ?_, runningActive := ?_,
        activePipes := ?_, queueActive := ?_, queuePipes := hInv.queuePipes,
        activeLen := ?_, progLB := ?_, progUB := ?_, tbLB := ?_, tbUB := ?_,
        fsLB := ?_ }
    · show ((writeJob s.jobs j').map (·.id)).Nodup
      rw [writeJob_map_id]
      exact hInv.jobsNodup
    · intro k hk
      obtain ⟨heq, hne⟩ := mem_writeJob hk
      by_cases hcid : k.id = j'.id
      · rw [heq hcid, hj'id]
        exact hInv.jobsLt j hjmem
      · exact hInv.jobsLt k (hne hcid)
    · intro id' hid'
      obtain ⟨jq', hf', hs'⟩ := hInv.queueJob id' hid'
      have hne : id' ≠ transferId := fun he => hidq (he ▸ hid')
      refine ⟨jq', ?_, hs'⟩
      show findJob (writeJob s.jobs j') id' = some jq'
      rw [findJob_writeJob, if_neg (by rw [hj'id, hjid]; exact hne)]
      exact hf'
    · intro id' hid'
      rw [List.mem_filter] at hid'
      obtain ⟨hact, hneb⟩ := hid'
      have hne : id' ≠ transferId := by simpa using hneb
      obtain ⟨jr, hfr, hsr⟩ := hInv.activeJob id' hact
      refine ⟨jr, ?_, hsr⟩
      show findJob (writeJob s.jobs j') id' = some jr
      rw [findJob_writeJob, if_neg (by rw [hj'id, hjid]; exact hne)]
      exact hfr
    · intro id' hid'
      by_cases hne : id' = transferId
      · subst hne
        refine ⟨j', ?_, Or.inr (by rw [hjdef, cancel_status])⟩
        show findJob (writeJob s.jobs j') id' = some j'
        rw [findJob_writeJob, if_pos (by rw [hj'id, hjid])]
        rw [hj'id, hjid, hf]
        rfl
      · obtain ⟨jr, hfr, hsr⟩ := hInv.pipesJob id' hid'
        refine ⟨jr, ?_, hsr⟩
        show findJob (writeJob s.jobs j') id' = some jr
        rw [findJob_writeJob, if_neg (by rw [hj'id, hjid]; exact hne)]
        exact hfr
    · intro k hk hrunk
      obtain ⟨heq, hne⟩ := mem_writeJob hk
      by_cases hcid : k.id = j'.id
      · rw [heq hcid] at hrunk
        rw [hjdef, cancel_status] at hrunk
        cases hrunk
      · have hkact := hInv.runningActive k (hne hcid) hrunk
        rw [List.mem_filter]
        refine ⟨hkact, ?_⟩
        have : k.id ≠ transferId := by
          rw [hj'id, hjid] at hcid
          exact hcid
        simpa using this
    · intro id' hid'
      rw [List.mem_filter] at hid'
      exact hInv.activePipes id' hid'.1
    · intro id' hid' hc
      rw [List.mem_filter] at hc
      exact hInv.queueActive id' hid' hc.1
    · exact le_trans (List.length_filter_le _ _) hInv.activeLen
    · intro k hk
      obtain ⟨heq, hne⟩ := mem_writeJob hk
      by_cases hcid : k.id = j'.id
      · rw [heq hcid, hjdef]
        exact cancel_progress_nonneg j now (hInv.tbLB j hjmem)
      · exact hInv.progLB k (hne hcid)
    · intro k hk
      obtain ⟨heq, hne⟩ := mem_writeJob hk
      by_cases hcid : k.id = j'.id
      · rw [heq hcid, hjdef]
        exact cancel_progress_le j now (hInv.tbUB j hjmem)
      · exact hInv.progUB k (hne hcid)
    · intro k hk
      obtain ⟨heq, hne⟩ := mem_writeJob hk
      by_cases hcid : k.id = j'.id
      · rw [heq hcid, hjdef, cancel_tb]
        exact hInv.tbLB j hjmem
      · exact hInv.tbLB k (hne hcid)
    · intro k hk
      obtain ⟨heq, hne⟩ := mem_writeJob hk
      by_cases hcid : k.id = j'.id
      · rw [heq hcid, hjdef, cancel_tb, cancel_fs]
        exact hInv.tbUB j hjmem
      · exact hInv.tbUB k (hne hcid)
    · intro k hk
      obtain ⟨heq, hne⟩ := mem_writeJob hk
      by_cases hcid : k.id = j'.id
      · rw [heq hcid, hjdef, cancel_fs]
        exact hInv.fsLB j hjmem
      · exact hInv.fsLB k (hne hcid)
  · rw [cancelTransfer_inactive hmem]
    refine ⟨⟨hInv.jobsNodup, hInv.queueNodup, hInv.jobsLt, hInv.queueJob,
      hInv.activeJob, hInv.pipesJob, hInv.runningActive, hInv.activePipes,
      hInv.queueActive, hInv.queuePipes, hInv.activeLen, hInv.progLB,
      hInv.progUB, hInv.tbLB, hInv.tbUB, hInv.fsLB⟩, hD⟩

/-- Every engine transition preserves the invariant and drain discipline. -/
theorem step_good {accounts : List CloudAccount} {s s' : EngineState}
    (hstep : Step accounts s s') (hI : Inv s) (hD : Drained s) :
    Inv s' ∧ Drained s' := by
  cases hstep with
  | create probe opts now hok => exact inv_createTransfer hok hI
  | complete id now hpipe => exact inv_processComplete now hpipe hI
  | fail id msg now hpipe => exact inv_processFail now hpipe hI
  | progress id phase percentage speed hpipe h0 h100 =>
    exact inv_pipelineProgress h0 h100 hI hD
  | cancel id userId now => exact inv_cancelTransfer id userId now hI hD

/-- Every reachable engine state satisfies the invariant and drain discipline. -/
theorem reachable_good {accounts : List CloudAccount} {s : EngineState}
    (h : Reachable accounts s) : Inv s ∧ Drained s := by
  induction h with
  | init => exact ⟨inv_init, fun hne => absurd rfl hne⟩
  | step hr hstep ih => exact step_good hstep ih.1 ih.2

/-! ### Reachability of the concrete scenario states -/

theorem reachable_demoS1 : Reachable demoAccounts demoS1 :=
  .step .init
    (.create (some 100) demoOpts 0
      (show createTransfer demoAccounts (some 100) initState demoOpts 0 =
        .ok (demoS1, { transferId := 1, status := "queued" }) from rfl))

theorem reachable_demoS2 : Reachable demoAccounts demoS2 :=
  .step reachable_demoS1
    (.create (some 100) demoOpts 0
      (show createTransfer demoAccounts (some 100) demoS1 demoOpts 0 =
        .ok (demoS2, { transferId := 2, status := "queued" }) from rfl))

theorem reachable_demoS3 : Reachable demoAccounts demoS3 :=
  .step reachable_demoS2
    (.create (some 100) demoOpts 0
      (show createTransfer demoAccounts (some 100) demoS2 demoOpts 0 =
        .ok (demoS3, { transferId := 3, status := "queued" }) from rfl))

theorem reachable_demoS4 : Reachable demoAccounts demoS4 :=
  .step reachable_demoS3
    (.create (some 100) demoOpts 0
      (show createTransfer demoAccounts (some 100) demoS3 demoOpts 0 =
        .ok (demoS4, { transferId := 4, status := "queued" }) from rfl))

theorem reachable_demoAfterCancel4 : Reachable demoAccounts demoAfterCancel4 :=
  .step reachable_demoS4 (.cancel 4 1 1)

theorem reachable_demoRestarted : Reachable demoAccounts demoRestarted :=
  .step reachable_demoAfterCancel4 (.complete 1 2 (by decide))

theorem reachable_demoRaceCancel : Reachable demoAccounts demoRaceCancel :=
  .step reachable_demoS4 (.cancel 1 1 1)

theorem reachable_demoRaceDone : Reachable demoAccounts demoRaceDone :=
  .step reachable_demoRaceCancel (.complete 1 2 (by decide))

theorem reachable_demoZeroSize : Reachable demoAccounts demoZeroSize :=
  .step .init
    (.create none demoOpts 0
      (show createTransfer demoAccounts none initState demoOpts 0 =
        .ok (demoZeroSize, { transferId := 1, status := "queued" }) from rfl))

theorem reachable_demoZeroSizeUpload : Reachable demoAccounts demoZeroSizeUpload :=
  .step reachable_demoZeroSize
    (.progress 1 .upload 100 0 (by decide) (by norm_num) (by norm_num))

/-! ## Claim theorems -/

/-- **C3**: in every reachable state of the engine, no matter how many
`createTransfer` calls are issued, the number of jobs whose status is
`running` never exceeds `maxConcurrentTransfers`, whose default value is 3. -/
theorem c3_running_bounded {accounts : List CloudAccount} {s : EngineState}
    (hR : Reachable accounts s) :
    runningCount s ≤ maxConcurrentTransfers ∧ maxConcurrentTransfers = 3 := by
  obtain ⟨hInv, _⟩ := reachable_good hR
  refine ⟨?_, rfl⟩
  unfold runningCount
  have hsub : (s.jobs.filter (fun j => j.status == Status.running)).map (·.id) ⊆
      s.activeTransfers := by
    intro a ha
    rcases List.mem_map.mp ha with ⟨k, hk, hkid⟩
    rw [List.mem_filter] at hk
    have hrun : k.status = .running := by simpa using hk.2
    exact hkid ▸ hInv.runningActive k hk.1 hrun
  have hnd : ((s.jobs.filter (fun j => j.status == Status.running)).map (·.id)).Nodup := by
    have hsl : (s.jobs.filter (fun j => j.status == Status.running)).Sublist s.jobs :=
      List.filter_sublist _
    exact hInv.jobsNodup.sublist (hsl.map _)
  have hle := (List.subperm_of_subset hnd hsub).length_le
  rw [List.length_map] at hle
  exact le_trans hle hInv.activeLen

/-- Witness for C3 at the concrete four-job state (three running, one queued). -/
theorem c3_running_bounded_witness :
    Reachable demoAccounts demoS4 ∧
      (runningCount demoS4 ≤ maxConcurrentTransfers ∧ maxConcurrentTransfers = 3) :=
  ⟨reachable_demoS4, c3_running_bounded reachable_demoS4⟩

/-- **C5** (code bug): on a job whose `fileSize` is 0, `complete()` sets
`status = completed` and `transferredBytes = fileSize`, but the
`updateProgress(this.fileSize, this.fileSize)` call it ends with overwrites
the just-forced `progress = 100` with 0 (its `total > 0` guard fails), so the
completed job reports progress 0 instead of the asserted 100. -/
theorem c5_complete_zero_size_bug :
    (demoJobNoSize.complete 5).status = .completed ∧
      (demoJobNoSize.complete 5).transferredBytes = (demoJobNoSize.complete 5).fileSize ∧
      (demoJobNoSize.complete 5).fileSize = 0 ∧
      (demoJobNoSize.complete 5).progress = 0 := by
  refine ⟨by decide, by decide, by decide, by decide⟩

/-- **C1** (code bug): `cancelTransfer` on the still-queued job 4 only flips
its database row to `cancelled` — the in-memory job stays in `transferQueue`.
When job 1 settles, the drain starts job 4: its status becomes `running` both
in memory and in the database, so the cancellation is not permanent. -/
theorem c1_cancel_queued_restarts_bug :
    Reachable demoAccounts demoAfterCancel4 ∧
      statusOf demoS4 4 = some .queued ∧
      dbStatusOf demoAfterCancel4 4 = some .cancelled ∧
      statusOf demoAfterCancel4 4 = some .queued ∧
      Step demoAccounts demoAfterCancel4 demoRestarted ∧
      statusOf demoRestarted 4 = some .running ∧
      dbStatusOf demoRestarted 4 = some .running :=
  ⟨reachable_demoAfterCancel4, by decide, by decide, by decide,
    .complete 1 2 (by decide), by decide, by decide⟩

/-- **C10**: `cancelTransfer(transferId, userId)` never consults `userId`:
its result and state effect are identical for any two callers, and on both
the active-set path and the persisted path it answers `{success := true}`
(no not-found or ownership error exists on these paths). -/
theorem c10_cancel_ignores_user (s : EngineState)
    (transferId userId userId' now : Nat) :
    cancelTransfer s transferId userId now =
        cancelTransfer s transferId userId' now ∧
      (cancelTransfer s transferId userId now).2 =
        { success := true, message := "Transfer cancelled" } := by
  refine ⟨rfl, ?_⟩
  by_cases hmem : transferId ∈ s.activeTransfers
  · rcases hj : lookupJob s transferId with _ | j
    · conv_lhs => unfold cancelTransfer
      rw [if_pos hmem, hj]
    · rw [cancelTransfer_active hmem hj]
  · rw [cancelTransfer_inactive hmem]

/-! ### The status-edge analysis over the finer-grained model -/

theorem findJob_writeJob_cases {jobs : List TransferJob} {id0 : Nat}
    {j : TransferJob} (jt : TransferJob) (id' : Nat)
    (hj : findJob jobs id0 = some j) (hid : jt.id = j.id) :
    findJob (writeJob jobs jt) id' =
      if id' = id0 then some jt else findJob jobs id' := by
  have hj0 : j.id = id0 := (findJob_some hj).2
  rw [findJob_writeJob]
  by_cases hc : id' = id0
  · rw [if_pos (by rw [hid, hj0]; exact hc), if_pos hc]
    rw [hid, hj0, hj]
    rfl
  · rw [if_neg (by rw [hid, hj0]; exact hc), if_neg hc]

theorem findJob_writeJob_statusEq {jobs : List TransferJob} {id0 id' : Nat}
    {j jq : TransferJob} (jt : TransferJob)
    (hj : findJob jobs id0 = some j) (hid : jt.id = j.id)
    (hst : jt.status = j.status) (hfq : findJob jobs id' = some jq) :
    ∃ jr, findJob (writeJob jobs jt) id' = some jr ∧ jr.status = jq.status := by
  rw [findJob_writeJob_cases jt id' hj hid]
  by_cases hne : id' = id0
  · subst hne
    have hje : j = jq := Option.some_inj.mp (hj.symm.trans hfq)
    exact ⟨jt, by rw [if_pos rfl], by rw [hst, hje]⟩
  · exact ⟨jq, by rw [if_neg hne]; exact hfq, rfl⟩

/-! Unfolding equations for the settle halves. -/

theorem settleComplete_some {s : FineState} {id : Nat} {now : Nat}
    {j : TransferJob} (hj : findJob s.jobs id = some j) :
    settleComplete s id now =
      { jobs := writeJob s.jobs (j.complete now)
        transferQueue := s.transferQueue
        activeTransfers := s.activeTransfers
        pipes := s.pipes.filter (fun a => a ≠ id)
        db := dbUpdateFromJob s.db (j.complete now)
        nextId := s.nextId
        settling := id :: s.settling } := by
  conv_lhs => unfold settleComplete
  rw [hj]

theorem settleFail_some {s : FineState} {id : Nat} {msg : String} {now : Nat}
    {j : TransferJob} (hj : findJob s.jobs id = some j) :
    settleFail s id msg now =
      { jobs := writeJob s.jobs (j.fail now msg)
        transferQueue := s.transferQueue
        activeTransfers := s.activeTransfers
        pipes := s.pipes.filter (fun a => a ≠ id)
        db := dbUpdateFromJob s.db (j.fail now msg)
        nextId := s.nextId
        settling := id :: s.settling } := by
  conv_lhs => unfold settleFail
  rw [hj]

/-! Preservation of the edge-classification invariant. -/

theorem edgeInv_init : EdgeInv initState := by
  constructor <;> simp [initState]

theorem edgeInv_enqueue {s : EngineState} (opts : CreateOptions) (fileSize : Rat)
    (now : Nat) (hI : EdgeInv s) : EdgeInv (enqueueState s opts fileSize now) := by
  have hfreshJobs : ∀ k ∈ s.jobs, k.id ≠ s.nextId :=
    fun k hk => Nat.ne_of_lt (hI.jobsLt k hk)
  have hfreshQueue : s.nextId ∉ s.transferQueue := by
    intro hmem
    obtain ⟨j, hf, _⟩ := hI.queueJob _ hmem
    obtain ⟨hjm, hjid⟩ := findJob_some hf
    exact Nat.lt_irrefl _ (hjid ▸ hI.jobsLt j hjm)
  refine { jobsLt := ?_, queueNodup := ?_, queueJob := ?_, activeJob := ?_,
           pipesJob := ?_ }
  · intro k hk
    rcases List.mem_append.mp hk with h | h
    · exact Nat.lt_succ_of_lt (hI.jobsLt k h)
    · have : k = newTransferJob opts s.nextId fileSize now := by simpa using h
      rw [this]
      exact Nat.lt_succ_self _
  · show (s.transferQueue ++ [s.nextId]).Nodup
    refine List.Nodup.append hI.queueNodup (List.nodup_singleton _) ?_
    intro a ha hb
    have : a = s.nextId := by simpa using hb
    exact hfreshQueue (this ▸ ha)
  · intro id' hid'
    rcases List.mem_append.mp hid' with h | h
    · obtain ⟨j, hf, hst⟩ := hI.queueJob id' h
      exact ⟨j, findJob_append_left hf, hst⟩
    · have he : id' = s.nextId := by simpa using h
      subst he
      refine ⟨newTransferJob opts s.nextId fileSize now, ?_, rfl⟩
      show findJob (s.jobs ++ [newTransferJob opts s.nextId fileSize now]) s.nextId = _
      rw [findJob_append_fresh hfreshJobs]
      simp [findJob, newTransferJob]
  · intro id' hid'
    obtain ⟨j, hf, hst⟩ := hI.activeJob id' hid'
    exact ⟨j, findJob_append_left hf, hst⟩
  · intro id' hid'
    obtain ⟨j, hf, hst⟩ := hI.pipesJob id' hid'
    exact ⟨j, findJob_append_left hf, hst⟩

theorem drainAux_edgeInv (q : List Nat) (s : EngineState) (now : Nat)
    (hq : s.transferQueue = q) (hI : EdgeInv s) : EdgeInv (drainAux q s now) := by
  induction q generalizing s with
  | nil =>
    rw [drainAux_nil]
    exact hI
  | cons id rest ih =>
    have hmem : id ∈ s.transferQueue := by
      rw [hq]; exact List.mem_cons_self _ _
    by_cases hcap : s.activeTransfers.length < maxConcurrentTransfers
    · rcases hj : findJob s.jobs id with _ | j
      · obtain ⟨jq, hfind, _⟩ := hI.queueJob id hmem
        rw [hj] at hfind
        cases hfind
      · obtain ⟨jq, hfind, hqd⟩ := hI.queueJob id hmem
        rw [hj] at hfind
        have hjq : jq = j := Option.some_inj.mp hfind.symm
        rw [hjq] at hqd
        obtain ⟨hjmem, hjid⟩ := findJob_some hj
        have hqn : (id :: rest).Nodup := hq ▸ hI.queueNodup
        have hidrest : id ∉ rest := (List.nodup_cons.mp hqn).1
        have hrestnd : rest.Nodup := (List.nodup_cons.mp hqn).2
        rw [drainAux_cons_some hcap hj]
        refine ih _ rfl ?_
        refine { jobsLt := ?_, queueNodup := hrestnd, queueJob := ?_,
                 activeJob := ?_, pipesJob := ?_ }
        · intro k hk
          obtain ⟨heq, hne⟩ := mem_writeJob hk
          by_cases hcid : k.id = (j.start now).id
          · rw [heq hcid, start_id]
            exact hI.jobsLt j hjmem
          · exact hI.jobsLt k (hne hcid)
        · intro id' hid'
          obtain ⟨jq', hf', hs'⟩ :=
            hI.queueJob id' (by rw [hq]; exact List.mem_cons_of_mem _ hid')
          have hne : id' ≠ id := fun he => hidrest (he ▸ hid')
          refine ⟨jq', ?_, hs'⟩
          show findJob (writeJob s.jobs (j.start now)) id' = some jq'
          rw [findJob_writeJob_cases _ id' hj (start_id j now), if_neg hne]
          exact hf'
        · intro id' hid'
          rcases List.mem_append.mp hid' with h | h
          · obtain ⟨jr, hf, hs⟩ := hI.activeJob id' h
            have hne : id' ≠ id := by
              intro he
              subst he
              have hje : jr = j := Option.some_inj.mp (hf.symm.trans hj)
              rw [hje, hqd] at hs
              simp at hs
            refine ⟨jr, ?_, hs⟩
            show findJob (writeJob s.jobs (j.start now)) id' = some jr
            rw [findJob_writeJob_cases _ id' hj (start_id j now), if_neg hne]
            exact hf
          · have he : id' = id := by simpa using h
            subst he
            refine ⟨j.start now, ?_, Or.inl (start_status j now)⟩
            show findJob (writeJob s.jobs (j.start now)) id' = some (j.start now)
            rw [findJob_writeJob_cases _ id' hj (start_id j now), if_pos rfl]
        · intro id' hid'
          rcases List.mem_append.mp hid' with h | h
          · obtain ⟨jr, hf, hs⟩ := hI.pipesJob id' h
            have hne : id' ≠ id := by
              intro he
              subst he
              have hje : jr = j := Option.some_inj.mp (hf.symm.trans hj)
              rw [hje, hqd] at hs
              simp at hs
            refine ⟨jr, ?_, hs⟩
            show findJob (writeJob s.jobs (j.start now)) id' = some jr
            rw [findJob_writeJob_cases _ id' hj (start_id j now), if_neg hne]
            exact hf
          · have he : id' = id := by simpa using h
            subst he
            refine ⟨j.start now, ?_, Or.inl (start_status j now)⟩
            show findJob (writeJob s.jobs (j.start now)) id' = some (j.start now)
            rw [findJob_writeJob_cases _ id' hj (start_id j now), if_pos rfl]
    · rw [drainAux_cons_stuck hcap]
      exact hI

/-- A terminal write of a settle coroutine preserves the edge invariant: the
job of a pipe still in flight turns terminal in place, its pipe leaves the
in-flight set, and `activeTransfers` is untouched. -/
theorem edgeInv_settleWrite {s : EngineState} {id : Nat} {j : TransferJob}
    (jt : TransferJob) (db' : List DbRow)
    (hj : findJob s.jobs id = some j)
    (hjs : j.status = .running ∨ j.status = .cancelled)
    (hid : jt.id = j.id)
    (hst : jt.status = .completed ∨ jt.status = .failed)
    (hI : EdgeInv s) :
    EdgeInv
      { jobs := writeJob s.jobs jt
        transferQueue := s.transferQueue
        activeTransfers := s.activeTransfers
        pipes := s.pipes.filter (fun a => a ≠ id)
        db := db'
        nextId := s.nextId } := by
  refine { jobsLt := ?_, queueNodup := hI.queueNodup, queueJob := ?_,
           activeJob := ?_, pipesJob := ?_ }
  · intro k hk
    obtain ⟨heq, hne⟩ := mem_writeJob hk
    by_cases hcid : k.id = jt.id
    · rw [heq hcid, hid]
      exact hI.jobsLt j (findJob_some hj).1
    · exact hI.jobsLt k (hne hcid)
  · intro qid hqid
    obtain ⟨jq, hfq, hsq⟩ := hI.queueJob qid hqid
    have hne : qid ≠ id := by
      intro he
      subst he
      have hje : jq = j := Option.some_inj.mp (hfq.symm.trans hj)
      rw [hje] at hsq
      rw [hsq] at hjs
      simp at hjs
    refine ⟨jq, ?_, hsq⟩
    show findJob (writeJob s.jobs jt) qid = some jq
    rw [findJob_writeJob_cases jt qid hj hid, if_neg hne]
    exact hfq
  · intro aid haid
    obtain ⟨ja, hfa, hsa⟩ := hI.activeJob aid haid
    by_cases hne : aid = id
    · subst hne
      refine ⟨jt, ?_, ?_⟩
      · show findJob (writeJob s.jobs jt) aid = some jt
        rw [findJob_writeJob_cases jt aid hj hid, if_pos rfl]
      · rcases hst with h | h
        · exact Or.inr (Or.inl h)
        · exact Or.inr (Or.inr h)
    · refine ⟨ja, ?_, hsa⟩
      show findJob (writeJob s.jobs jt) aid = some ja
      rw [findJob_writeJob_cases jt aid hj hid, if_neg hne]
      exact hfa
  · intro pid hpid
    have hmp := List.mem_filter.mp hpid
    have hne : pid ≠ id := by simpa using hmp.2
    obtain ⟨jp, hfp, hsp⟩ := hI.pipesJob pid hmp.1
    refine ⟨jp, ?_, hsp⟩
    show findJob (writeJob s.jobs jt) pid = some jp
    rw [findJob_writeJob_cases jt pid hj hid, if_neg hne]
    exact hfp

/-- An in-place job write that preserves id and status preserves the edge
invariant (the bookkeeping lists and `nextId` unchanged, the row update
irrelevant). -/
theorem edgeInv_statusKeep {s : EngineState} {id : Nat} {j : TransferJob}
    (jt : TransferJob) (db' : List DbRow)
    (hj : findJob s.jobs id = some j)
    (hid : jt.id = j.id) (hst : jt.status = j.status) (hI : EdgeInv s) :
    EdgeInv { s with jobs := writeJob s.jobs jt, db := db' } := by
  refine { jobsLt := ?_, queueNodup := hI.queueNodup, queueJob := ?_,
           activeJob := ?_, pipesJob := ?_ }
  · intro k hk
    obtain ⟨heq, hne⟩ := mem_writeJob hk
    by_cases hcid : k.id = jt.id
    · rw [heq hcid, hid]
      exact hI.jobsLt j (findJob_some hj).1
    · exact hI.jobsLt k (hne hcid)
  · intro qid hqid
    obtain ⟨jq, hfq, hsq⟩ := hI.queueJob qid hqid
    obtain ⟨jr, hl, hsr⟩ := findJob_writeJob_statusEq jt hj hid hst hfq
    exact ⟨jr, hl, by rw [hsr]; exact hsq⟩
  · intro aid haid
    obtain ⟨ja, hfa, hsa⟩ := hI.activeJob aid haid
    obtain ⟨jr, hl, hsr⟩ := findJob_writeJob_statusEq jt hj hid hst hfa
    exact ⟨jr, hl, by rw [hsr]; exact hsa⟩
  · intro pid hpid
    obtain ⟨jp, hfp, hsp⟩ := hI.pipesJob pid hpid
    obtain ⟨jr, hl, hsr⟩ := findJob_writeJob_statusEq jt hj hid hst hfp
    exact ⟨jr, hl, by rw [hsr]; exact hsp⟩

theorem edgeInv_fineStep {accounts : List CloudAccount} {s t : FineState}
    (hstep : FineStep accounts s t) (hI : EdgeInv s.toEngineState) :
    EdgeInv t.toEngineState := by
  cases hstep with
  | create probe opts now hok =>
    obtain ⟨he, _⟩ := createTransfer_ok hok
    subst he
    show EdgeInv (drainAux
      (enqueueState s.toEngineState opts ((probe.getD 0 : Nat) : Rat) now).transferQueue
      (enqueueState s.toEngineState opts ((probe.getD 0 : Nat) : Rat) now) now)
    exact drainAux_edgeInv _ _ now rfl (edgeInv_enqueue opts _ now hI)
  | complete id now hpipe =>
    obtain ⟨j, hj, hjs⟩ := hI.pipesJob id hpipe
    rw [settleComplete_some hj]
    exact edgeInv_settleWrite (j.complete now) _ hj hjs (complete_id j now)
      (Or.inl (complete_status j now)) hI
  | fail id msg now hpipe =>
    obtain ⟨j, hj, hjs⟩ := hI.pipesJob id hpipe
    rw [settleFail_some hj]
    exact edgeInv_settleWrite (j.fail now msg) _ hj hjs (fail_id j now msg)
      (Or.inr (fail_status j now msg)) hI
  | evict id now hset =>
    show EdgeInv (processQueue
      { s.toEngineState with
          activeTransfers := s.activeTransfers.filter (fun a => a ≠ id) } now)
    refine drainAux_edgeInv _ _ now rfl ?_
    refine { jobsLt := ?_, queueNodup := ?_, queueJob := ?_, activeJob := ?_,
             pipesJob := ?_ }
    · exact hI.jobsLt
    · exact hI.queueNodup
    · exact hI.queueJob
    · intro aid haid
      exact hI.activeJob aid (List.mem_filter.mp haid).1
    · exact hI.pipesJob
  | progress id phase percentage speed hpipe h0 h100 =>
    show EdgeInv (pipelineProgress s.toEngineState id phase percentage speed)
    rcases hj : lookupJob s.toEngineState id with _ | j
    · rw [pipelineProgress_none hj]
      exact hI
    · rw [pipelineProgress_some hj]
      exact edgeInv_statusKeep _ _ hj (updateProgress_id j _ _ _)
        (updateProgress_status j _ _ _) hI
  | cancel id userId now =>
    show EdgeInv (cancelTransfer s.toEngineState id userId now).1
    by_cases hmem : id ∈ s.toEngineState.activeTransfers
    · obtain ⟨j, hj, hjs⟩ := hI.activeJob id hmem
      rw [cancelTransfer_active hmem hj]
      refine { jobsLt := ?_, queueNodup := hI.queueNodup, queueJob := ?_,
               activeJob := ?_, pipesJob := ?_ }
      · intro k hk
        obtain ⟨heq, hne⟩ := mem_writeJob hk
        by_cases hcid : k.id = (j.cancel now).id
        · rw [heq hcid, cancel_id]
          exact hI.jobsLt j (findJob_some hj).1
        · exact hI.jobsLt k (hne hcid)
      · intro qid hqid
        obtain ⟨jq, hfq, hsq⟩ := hI.queueJob qid hqid
        have hne : qid ≠ id := by
          intro he
          subst he
          have hje : jq = j := Option.some_inj.mp (hfq.symm.trans hj)
          rw [hje] at hsq
          rw [hsq] at hjs
          simp at hjs
        refine ⟨jq, ?_, hsq⟩
        show findJob (writeJob s.jobs (j.cancel now)) qid = some jq
        rw [findJob_writeJob_cases _ qid hj (cancel_id j now), if_neg hne]
        exact hfq
      · intro aid haid
        have hmp := List.mem_filter.mp haid
        have hne : aid ≠ id := by simpa using hmp.2
        obtain ⟨ja, hfa, hsa⟩ := hI.activeJob aid hmp.1
        refine ⟨ja, ?_, hsa⟩
        show findJob (writeJob s.jobs (j.cancel now)) aid = some ja
        rw [findJob_writeJob_cases _ aid hj (cancel_id j now), if_neg hne]
        exact hfa
      · intro pid hpid
        by_cases hne : pid = id
        · subst hne
          refine ⟨j.cancel now, ?_, Or.inr (cancel_status j now)⟩
          show findJob (writeJob s.jobs (j.cancel now)) pid = some (j.cancel now)
          rw [findJob_writeJob_cases _ pid hj (cancel_id j now), if_pos rfl]
        · obtain ⟨jp, hfp, hsp⟩ := hI.pipesJob pid hpid
          refine ⟨jp, ?_, hsp⟩
          show findJob (writeJob s.jobs (j.cancel now)) pid = some jp
          rw [findJob_writeJob_cases _ pid hj (cancel_id j now), if_neg hne]
          exact hfp
    · rw [cancelTransfer_inactive hmem]
      exact { jobsLt := hI.jobsLt, queueNodup := hI.queueNodup,
              queueJob := hI.queueJob, activeJob := hI.activeJob,
              pipesJob := hI.pipesJob }

/-- Every reachable finer-grained state satisfies the edge invariant. -/
theorem fineReachable_edgeInv {accounts : List CloudAccount} {s : FineState}
    (h : FineReachable accounts s) : EdgeInv s.toEngineState := by
  induction h with
  | init => exact edgeInv_init
  | step _ hstep ih => exact edgeInv_fineStep hstep ih

theorem fineReachable_fineS1 : FineReachable demoAccounts fineS1 :=
  .step .init
    (.create (some 100) demoOpts 0
      (show createTransfer demoAccounts (some 100) initState demoOpts 0 =
        .ok (fineS1.toEngineState, { transferId := 1, status := "queued" }) from rfl))

theorem fineReachable_fineSettle1 : FineReachable demoAccounts fineSettle1 :=
  .step fineReachable_fineS1 (.complete 1 1 (by decide))

theorem fineReachable_fineRaceCancel : FineReachable demoAccounts fineRaceCancel :=
  .step fineReachable_fineS1 (.cancel 1 1 1)

/-- **C2** (amended): along any transition of the engine from a reachable
state — at the granularity of the source's `await` boundaries, with
`processTransfer`'s settle split at the persist suspension between the
terminal write and the `activeTransfers` eviction — a job's in-memory status
changes only along `queued → running`, `running → {completed, failed,
cancelled}`, or the four edges produced by the cancel races:
`cancelled → {completed, failed}` when the terminal write of an in-flight
pipeline lands on a cancel-evicted job, and `{completed, failed} → cancelled`
when a `cancelTransfer` lands during the settle suspension, while the
already-terminal job still sits in `activeTransfers`.  In particular no
terminal status is stable against the cancel race, and the in-memory
`queued → cancelled` edge of the specification never occurs (the non-active
cancel path writes only the database row). -/
theorem c2_status_edges {accounts : List CloudAccount} {s t : FineState}
    (hR : FineReachable accounts s) (hstep : FineStep accounts s t) {id : Nat}
    {j j' : TransferJob} (h1 : findJob s.jobs id = some j)
    (h2 : findJob t.jobs id = some j') (hne : j.status ≠ j'.status) :
    (j.status, j'.status) ∈ fineStatusEdges := by
  have hI := fineReachable_edgeInv hR
  cases hstep with
  | create probe opts now hok =>
    obtain ⟨he, _⟩ := createTransfer_ok hok
    subst he
    have hEfind :
        findJob (enqueueState s.toEngineState opts
          ((probe.getD 0 : Nat) : Rat) now).jobs id = some j :=
      findJob_append_left h1
    have hIE : EdgeInv (enqueueState s.toEngineState opts
        ((probe.getD 0 : Nat) : Rat) now) :=
      edgeInv_enqueue opts _ now hI
    have h2' :
        findJob (drainAux
          (enqueueState s.toEngineState opts
            ((probe.getD 0 : Nat) : Rat) now).transferQueue
          (enqueueState s.toEngineState opts
            ((probe.getD 0 : Nat) : Rat) now) now).jobs id = some j' := h2
    rcases drainAux_lookup
        (enqueueState s.toEngineState opts
          ((probe.getD 0 : Nat) : Rat) now).transferQueue
        (enqueueState s.toEngineState opts
          ((probe.getD 0 : Nat) : Rat) now) now hIE.queueNodup id with
      hunch | ⟨hmemq, jx, hfx, hpost⟩
    · rw [hunch, hEfind] at h2'
      exact absurd (congrArg TransferJob.status (Option.some_inj.mp h2')) hne
    · have hjx : jx = j := Option.some_inj.mp (hfx.symm.trans hEfind)
      have hj'e : j' = jx.start now := by
        rw [hpost] at h2'
        exact (Option.some_inj.mp h2').symm
      obtain ⟨jq, hfq, hsq⟩ := hIE.queueJob id hmemq
      have hjq : jq = j := Option.some_inj.mp (hfq.symm.trans hEfind)
      rw [hjq] at hsq
      rw [hj'e, hjx, start_status, hsq]
      decide
  | complete id0 now0 hpipe =>
    obtain ⟨j0, hj0, hjs0⟩ := hI.pipesJob id0 hpipe
    have h2' : findJob (writeJob s.jobs (j0.complete now0)) id = some j' := by
      have h2a := h2
      rw [settleComplete_some hj0] at h2a
      exact h2a
    rw [findJob_writeJob_cases _ id hj0 (complete_id j0 now0)] at h2'
    by_cases hidc : id = id0
    · subst hidc
      have hje : j = j0 := Option.some_inj.mp (h1.symm.trans hj0)
      rw [if_pos rfl] at h2'
      have hj'e : j' = j0.complete now0 := (Option.some_inj.mp h2').symm
      rw [hje, hj'e, complete_status]
      rcases hjs0 with hs | hs
      · rw [hs]; decide
      · rw [hs]; decide
    · rw [if_neg hidc] at h2'
      exact absurd
        (congrArg TransferJob.status (Option.some_inj.mp (h1.symm.trans h2'))) hne
  | fail id0 msg now0 hpipe =>
    obtain ⟨j0, hj0, hjs0⟩ := hI.pipesJob id0 hpipe
    have h2' : findJob (writeJob s.jobs (j0.fail now0 msg)) id = some j' := by
      have h2a := h2
      rw [settleFail_some hj0] at h2a
      exact h2a
    rw [findJob_writeJob_cases _ id hj0 (fail_id j0 now0 msg)] at h2'
    by_cases hidc : id = id0
    · subst hidc
      have hje : j = j0 := Option.some_inj.mp (h1.symm.trans hj0)
      rw [if_pos rfl] at h2'
      have hj'e : j' = j0.fail now0 msg := (Option.some_inj.mp h2').symm
      rw [hje, hj'e, fail_status]
      rcases hjs0 with hs | hs
      · rw [hs]; decide
      · rw [hs]; decide
    · rw [if_neg hidc] at h2'
      exact absurd
        (congrArg TransferJob.status (Option.some_inj.mp (h1.symm.trans h2'))) hne
  | evict id0 now0 hset =>
    have h2' : findJob (drainAux s.transferQueue
        { s.toEngineState with
            activeTransfers := s.activeTransfers.filter (fun a => a ≠ id0) }
        now0).jobs id = some j' := h2
    rcases drainAux_lookup s.transferQueue
        { s.toEngineState with
            activeTransfers := s.activeTransfers.filter (fun a => a ≠ id0) }
        now0 hI.queueNodup id with hunch | ⟨hmemq, jx, hfx, hpost⟩
    · rw [hunch] at h2'
      have h2'' : findJob s.jobs id = some j' := h2'
      exact absurd
        (congrArg TransferJob.status (Option.some_inj.mp (h1.symm.trans h2''))) hne
    · have hfx' : findJob s.jobs id = some jx := hfx
      have hjx : jx = j := Option.some_inj.mp (hfx'.symm.trans h1)
      have hj'e : j' = jx.start now0 := by
        rw [hpost] at h2'
        exact (Option.some_inj.mp h2').symm
      obtain ⟨jq, hfq, hsq⟩ := hI.queueJob id hmemq
      have hjq : jq = j := Option.some_inj.mp (hfq.symm.trans h1)
      rw [hjq] at hsq
      rw [hj'e, hjx, start_status, hsq]
      decide
  | progress id0 phase percentage speed hpipe h0 h100 =>
    rcases hj0 : lookupJob s.toEngineState id0 with _ | j0
    · have h2' : findJob (pipelineProgress s.toEngineState id0 phase percentage
          speed).jobs id = some j' := h2
      rw [pipelineProgress_none hj0] at h2'
      have h2'' : findJob s.jobs id = some j' := h2'
      exact absurd
        (congrArg TransferJob.status (Option.some_inj.mp (h1.symm.trans h2''))) hne
    · have h2' : findJob (pipelineProgress s.toEngineState id0 phase percentage
          speed).jobs id = some j' := h2
      rw [pipelineProgress_some hj0] at h2'
      have h2'' : findJob (writeJob s.jobs
          (j0.updateProgress
            (((overallProgress phase percentage : Int) : Rat) * j0.fileSize / 100)
            j0.fileSize speed)) id = some j' := h2'
      rw [findJob_writeJob_cases _ id hj0 (updateProgress_id j0 _ _ _)] at h2''
      by_cases hidc : id = id0
      · subst hidc
        have hje : j = j0 := Option.some_inj.mp (h1.symm.trans hj0)
        rw [if_pos rfl] at h2''
        have hj'e : j' = j0.updateProgress
            (((overallProgress phase percentage : Int) : Rat) * j0.fileSize / 100)
            j0.fileSize speed := (Option.some_inj.mp h2'').symm
        rw [hje, hj'e, updateProgress_status] at hne
        exact absurd rfl hne
      · rw [if_neg hidc] at h2''
        exact absurd
          (congrArg TransferJob.status (Option.some_inj.mp (h1.symm.trans h2''))) hne
  | cancel id0 userId0 now0 =>
    by_cases hmem : id0 ∈ s.toEngineState.activeTransfers
    · obtain ⟨j0, hj0, hjs0⟩ := hI.activeJob id0 hmem
      have h2' : findJob (cancelTransfer s.toEngineState id0 userId0 now0).1.jobs
          id = some j' := h2
      rw [cancelTransfer_active hmem hj0] at h2'
      have h2'' : findJob (writeJob s.jobs (j0.cancel now0)) id = some j' := h2'
      rw [findJob_writeJob_cases _ id hj0 (cancel_id j0 now0)] at h2''
      by_cases hidc : id = id0
      · subst hidc
        have hje : j = j0 := Option.some_inj.mp (h1.symm.trans hj0)
        rw [if_pos rfl] at h2''
        have hj'e : j' = j0.cancel now0 := (Option.some_inj.mp h2'').symm
        rw [hje, hj'e, cancel_status]
        rcases hjs0 with hs | hs | hs
        · rw [hs]; decide
        · rw [hs]; decide
        · rw [hs]; decide
      · rw [if_neg hidc] at h2''
        exact absurd
          (congrArg TransferJob.status (Option.some_inj.mp (h1.symm.trans h2''))) hne
    · have h2' : findJob (cancelTransfer s.toEngineState id0 userId0 now0).1.jobs
          id = some j' := h2
      rw [cancelTransfer_inactive hmem] at h2'
      have h2'' : findJob s.jobs id = some j' := h2'
      exact absurd
        (congrArg TransferJob.status (Option.some_inj.mp (h1.symm.trans h2''))) hne

/-- Witness for C2: the `completed → cancelled` settle-race edge at a concrete
reachable state — job 1's completed-but-still-active job is flipped by a
cancel landing in the settle window — is classified by `fineStatusEdges`. -/
theorem c2_status_edges_witness :
    (((findJob fineSettle1.jobs 1).get (by decide)).status,
      ((findJob fineCancelled1.jobs 1).get (by decide)).status) ∈ fineStatusEdges :=
  @c2_status_edges demoAccounts fineSettle1 fineCancelled1
    fineReachable_fineSettle1 (.cancel 1 2 2) 1
    ((findJob fineSettle1.jobs 1).get (by decide))
    ((findJob fineCancelled1.jobs 1).get (by decide))
    (Option.some_get _).symm (Option.some_get _).symm (by decide)

/-- **C2** (counterexample to the original claim): terminal statuses are not
stable.  In a reachable run, job 1 — already `completed`, its settle coroutine
suspended at the persist `await`, its id therefore still in `activeTransfers`
— is flipped to `cancelled` by a `cancelTransfer` landing in that window; in a
second reachable run the converse race occurs: job 1, `cancelled` and evicted
by `cancelTransfer`, is flipped back to `completed` when the terminal write of
its still-in-flight pipeline lands. -/
theorem c2_terminal_escape_counterexample :
    (FineReachable demoAccounts fineSettle1 ∧
      1 ∈ fineSettle1.activeTransfers ∧
      statusOf fineSettle1.toEngineState 1 = some .completed ∧
      FineStep demoAccounts fineSettle1 fineCancelled1 ∧
      statusOf fineCancelled1.toEngineState 1 = some .cancelled) ∧
    (FineReachable demoAccounts fineRaceCancel ∧
      statusOf fineRaceCancel.toEngineState 1 = some .cancelled ∧
      FineStep demoAccounts fineRaceCancel fineRaceDone ∧
      statusOf fineRaceDone.toEngineState 1 = some .completed) :=
  ⟨⟨fineReachable_fineSettle1, by decide, by decide, .cancel 1 2 2, by decide⟩,
   ⟨fineReachable_fineRaceCancel, by decide, .complete 1 2 (by decide), by decide⟩⟩

/-- **C4**: an error raised inside a running pipeline is recorded on the job
(`status = failed`, `error` = the message), the job leaves the active set, the
queue is re-drained (when a slot is free the waiting head starts), and the
error never reaches a caller of `createTransfer`: the settle continuation is a
total function of the state (the rethrown error is consumed by the `.catch`
installed in `processQueue`), and every accepted `createTransfer` call already
returned `{transferId, status := "queued"}`. -/
theorem c4_pipeline_error_contained {accounts : List CloudAccount}
    {s : EngineState} {id : Nat} (msg : String) (now : Nat)
    (hR : Reachable accounts s) (hpipe : id ∈ s.pipes) :
    (∃ jf, lookupJob (processFail s id msg now) id = some jf ∧
        jf.status = .failed ∧ jf.error = some msg) ∧
      id ∉ (processFail s id msg now).activeTransfers ∧
      (∀ hd rest, s.transferQueue = hd :: rest →
        (s.activeTransfers.filter (fun a => a ≠ id)).length <
          maxConcurrentTransfers →
        hd ∈ (processFail s id msg now).activeTransfers) ∧
      (∀ (probe : Option Nat) (s₀ : EngineState) (opts : CreateOptions)
          (now₀ : Nat) (s' : EngineState) (r : CreateResult),
        createTransfer accounts probe s₀ opts now₀ = .ok (s', r) →
        r = { transferId := s₀.nextId, status := "queued" }) := by
  obtain ⟨hInv, _⟩ := reachable_good hR
  obtain ⟨jp, hfp, hsp⟩ := hInv.pipesJob id hpipe
  have hj : lookupJob s id = some jp := hfp
  obtain ⟨hjmem, hjid⟩ := findJob_some hfp
  have hidq : id ∉ s.transferQueue := fun hq => hInv.queuePipes id hq hpipe
  rw [processFail_some hj]
  set I : EngineState :=
    { jobs := writeJob s.jobs (jp.fail now msg)
      transferQueue := s.transferQueue
      activeTransfers := s.activeTransfers.filter (fun a => a ≠ id)
      pipes := s.pipes.filter (fun a => a ≠ id)
      db := dbUpdateFromJob s.db (jp.fail now msg)
      nextId := s.nextId } with hIdef
  have hI : Inv I :=
    inv_settle hfp hpipe (fail_id jp now msg) (by simp)
      (fail_progress_nonneg jp now msg (hInv.tbLB jp hjmem))
      (fail_progress_le jp now msg (hInv.tbUB jp hjmem))
      (by rw [fail_tb]; exact hInv.tbLB jp hjmem)
      (by rw [fail_tb, fail_fs]; exact hInv.tbUB jp hjmem)
      (by rw [fail_fs]; exact hInv.fsLB jp hjmem)
      hInv
  have hIq : I.transferQueue = s.transferQueue := by rw [hIdef]
  have hIfind : findJob I.jobs id = some (jp.fail now msg) := by
    rw [hIdef]
    show findJob (writeJob s.jobs (jp.fail now msg)) id = _
    rw [findJob_writeJob, if_pos (by rw [fail_id, hjid])]
    rw [fail_id, hjid, hfp]
    rfl
  refine ⟨?_, ?_, ?_, ?_⟩
  · rcases drainAux_lookup s.transferQueue I now hI.queueNodup id with
      hunch | ⟨hmemq, _, _, _⟩
    · refine ⟨jp.fail now msg, ?_, fail_status jp now msg, fail_error jp now msg⟩
      show findJob (drainAux s.transferQueue I now).jobs id = _
      rw [hunch]
      exact hIfind
    · exact absurd hmemq hidq
  · obtain ⟨m, hq', hact', hp', _⟩ := drainAux_take s.transferQueue I now hIq
    intro hmem
    have hmem' : id ∈ I.activeTransfers ++ s.transferQueue.take m := by
      rw [← hact']
      exact hmem
    rcases List.mem_append.mp hmem' with h | h
    · rw [hIdef] at h
      rw [List.mem_filter] at h
      simp at h
    · exact hidq (List.mem_of_mem_take h)
  · intro hd rest hqe hcap
    have hhdq : hd ∈ s.transferQueue := by
      rw [hqe]
      exact List.mem_cons_self _ _
    have hhdne : hd ≠ id := fun he => hidq (he ▸ hhdq)
    obtain ⟨jq, hfq, _⟩ := hInv.queueJob hd hhdq
    have hIfindhd : findJob I.jobs hd = some jq := by
      rw [hIdef]
      show findJob (writeJob s.jobs (jp.fail now msg)) hd = _
      rw [findJob_writeJob, if_neg (by rw [fail_id, hjid]; exact hhdne)]
      exact hfq
    have hcap' : I.activeTransfers.length < maxConcurrentTransfers := by
      rw [hIdef]
      exact hcap
    show hd ∈ (drainAux s.transferQueue I now).activeTransfers
    rw [hqe, drainAux_cons_some hcap' hIfindhd]
    obtain ⟨m, _, hact', _, _⟩ := drainAux_take rest
      { jobs := writeJob I.jobs (jq.start now)
        transferQueue := rest
        activeTransfers := I.activeTransfers ++ [hd]
        pipes := I.pipes ++ [hd]
        db := dbUpdateFromJob I.db (jq.start now)
        nextId := I.nextId } now rfl
    rw [hact']
    exact List.mem_append_left _
      (List.mem_append_right _ (List.mem_singleton.mpr rfl))
  · intro probe s₀ opts now₀ s' r hok
    exact (createTransfer_ok hok).2

/-- Witness for C4: job 1's pipeline fails with "NetworkError" in the
four-job state; queued job 4 starts in the freed slot. -/
theorem c4_pipeline_error_contained_witness :
    (1 : Nat) ∈ demoS4.pipes ∧
      ((∃ jf, lookupJob (processFail demoS4 1 "NetworkError" 2) 1 = some jf ∧
          jf.status = .failed ∧ jf.error = some "NetworkError") ∧
        (1 : Nat) ∉ (processFail demoS4 1 "NetworkError" 2).activeTransfers ∧
        (∀ hd rest, demoS4.transferQueue = hd :: rest →
          (demoS4.activeTransfers.filter (fun a => a ≠ 1)).length <
            maxConcurrentTransfers →
          hd ∈ (processFail demoS4 1 "NetworkError" 2).activeTransfers) ∧
        (∀ (probe : Option Nat) (s₀ : EngineState) (opts : CreateOptions)
            (now₀ : Nat) (s' : EngineState) (r : CreateResult),
          createTransfer demoAccounts probe s₀ opts now₀ = .ok (s', r) →
          r = { transferId := s₀.nextId, status := "queued" })) :=
  ⟨by decide, c4_pipeline_error_contained "NetworkError" 2 reachable_demoS4 (by decide)⟩

/-- A progress delivery leaves the job's `progress` at exactly the engine's
remapped percentage when `fileSize > 0`, and at 0 when `fileSize = 0`
(`updateProgress` recomputes `round(transferred/total*100)` and its
`total > 0` guard zeroes it). -/
theorem pipelineProgress_progress {s : EngineState} {id : Nat} {j : TransferJob}
    (phase : Phase) (percentage speed : Rat) (hj : lookupJob s id = some j) :
    (lookupJob (pipelineProgress s id phase percentage speed) id).map (·.progress) =
      some (if 0 < j.fileSize then overallProgress phase percentage else 0) := by
  have hj' : findJob s.jobs id = some j := hj
  obtain ⟨hjmem, hjid⟩ := findJob_some hj'
  rw [pipelineProgress_some hj]
  have hfind : findJob (writeJob s.jobs
      (j.updateProgress
        (((overallProgress phase percentage : Int) : Rat) * j.fileSize / 100)
        j.fileSize speed)) id =
      some (j.updateProgress
        (((overallProgress phase percentage : Int) : Rat) * j.fileSize / 100)
        j.fileSize speed) := by
    rw [findJob_writeJob, if_pos (by rw [updateProgress_id, hjid])]
    rw [updateProgress_id, hjid, hj']
    rfl
  show (findJob (writeJob s.jobs _) id).map (·.progress) = _
  rw [hfind]
  simp only [Option.map_some']
  congr 1
  show (if 0 < j.fileSize
    then jsRound (((overallProgress phase percentage : Int) : Rat) *
      j.fileSize / 100 / j.fileSize * 100)
    else 0) = _
  by_cases hfs : 0 < j.fileSize
  · rw [if_pos hfs, if_pos hfs]
    have harg : ((overallProgress phase percentage : Int) : Rat) *
        j.fileSize / 100 / j.fileSize * 100 =
        ((overallProgress phase percentage : Int) : Rat) := by
      field_simp
      ring
    rw [harg, jsRound_intCast]
  · rw [if_neg hfs, if_neg hfs]

/-- **C6** (amended): (1) in every reachable state every job's progress lies
in `[0, 100]`; (2) a progress delivery sets the job's progress to the remapped
percentage when `fileSize > 0` and to 0 when `fileSize = 0`; (3) the remap is
monotone in the provider's (non-decreasing) percentage within each phase;
(4) every download value is below every upload value, so progress never
decreases across the phase switch; (5) the download remap lies in `[0, 50]`
and the upload remap in `[50, 100]` — so the job's progress tracks these
ranges exactly when `fileSize > 0` (for `fileSize = 0` it stays 0 by (2)). -/
theorem c6_progress_invariants :
    (∀ (accounts : List CloudAccount) (s : EngineState), Reachable accounts s →
      ∀ j ∈ s.jobs, 0 ≤ j.progress ∧ j.progress ≤ 100) ∧
    (∀ (s : EngineState) (id : Nat) (j : TransferJob) (phase : Phase)
        (percentage speed : Rat), lookupJob s id = some j →
      (lookupJob (pipelineProgress s id phase percentage speed) id).map
          (·.progress) =
        some (if 0 < j.fileSize then overallProgress phase percentage else 0)) ∧
    (∀ (phase : Phase) (p q : Rat), p ≤ q →
      overallProgress phase p ≤ overallProgress phase q) ∧
    (∀ p q : Rat, p ≤ 100 → 0 ≤ q →
      overallProgress .download p ≤ overallProgress .upload q) ∧
    (∀ p : Rat, 0 ≤ p → p ≤ 100 →
      0 ≤ overallProgress .download p ∧ overallProgress .download p ≤ 50 ∧
        50 ≤ overallProgress .upload p ∧ overallProgress .upload p ≤ 100) := by
  refine ⟨?_, ?_, ?_, ?_, ?_⟩
  · intro accounts s hR j hj
    obtain ⟨hInv, _⟩ := reachable_good hR
    exact ⟨hInv.progLB j hj, hInv.progUB j hj⟩
  · intro s id j phase percentage speed hj
    exact pipelineProgress_progress phase percentage speed hj
  · intro phase p q hpq
    have hm : jsRound (p * (1/2)) ≤ jsRound (q * (1/2)) :=
      jsRound_mono (by linarith)
    cases phase with
    | download => exact hm
    | upload =>
      show 50 + jsRound (p * (1/2)) ≤ 50 + jsRound (q * (1/2))
      omega
  · intro p q hp hq
    have h1 : jsRound (p * (1/2)) ≤ (50 : Int) := jsRound_le (by push_cast; linarith)
    have h2 : (0 : Int) ≤ jsRound (q * (1/2)) := jsRound_nonneg (by positivity)
    show jsRound (p * (1/2)) ≤ 50 + jsRound (q * (1/2))
    omega
  · intro p h0 h100
    have h1 : (0 : Int) ≤ jsRound (p * (1/2)) := jsRound_nonneg (by positivity)
    have h2 : jsRound (p * (1/2)) ≤ (50 : Int) := jsRound_le (by push_cast; linarith)
    exact ⟨h1, h2, by show (50:Int) ≤ 50 + jsRound (p * (1/2)); omega,
      by show 50 + jsRound (p * (1/2)) ≤ (100:Int); omega⟩

/-- Witness for C6 at concrete inputs: the invariant at the four-job state
and the remap at 40% download / 80% upload on a running 1000-byte job. -/
theorem c6_progress_invariants_witness :
    Reachable demoAccounts demoS4 ∧
      (∀ j ∈ demoS4.jobs, 0 ≤ j.progress ∧ j.progress ≤ 100) ∧
      (lookupJob (pipelineProgress demoRunningState 1 .download 40 0) 1).map
        (·.progress) = some 20 ∧
      (lookupJob (pipelineProgress demoRunningState 1 .upload 80 0) 1).map
        (·.progress) = some 90 ∧
      overallProgress .download 100 ≤ overallProgress .upload 0 :=
  ⟨reachable_demoS4,
   fun j hj => (c6_progress_invariants.1 demoAccounts demoS4 reachable_demoS4) j hj,
   by rw [c6_progress_invariants.2.1 demoRunningState 1 demoRunningJob
        .download 40 0 rfl,
      if_pos (show (0 : Rat) < demoRunningJob.fileSize by norm_num [demoRunningJob]),
      show overallProgress Phase.download 40 = 20 from
        jsRound_eq (by norm_num) (by norm_num)],
   by rw [c6_progress_invariants.2.1 demoRunningState 1 demoRunningJob
        .upload 80 0 rfl,
      if_pos (show (0 : Rat) < demoRunningJob.fileSize by norm_num [demoRunningJob]),
      show overallProgress Phase.upload 80 = 90 from by
        show 50 + jsRound ((80 : Rat) * (1/2)) = 90
        rw [show jsRound ((80 : Rat) * (1/2)) = 40 from
          jsRound_eq (by norm_num) (by norm_num)]
        norm_num],
   c6_progress_invariants.2.2.2.1 100 0 (by norm_num) (by norm_num)⟩

/-- **C6** (counterexample): for a running job with `fileSize = 0`, an
upload-phase progress event reporting 100% leaves the job's progress at 0,
which is not in the claimed upload range `[50, 100]`. -/
theorem c6_upload_range_counterexample :
    Reachable demoAccounts demoZeroSize ∧
      statusOf demoZeroSize 1 = some .running ∧
      (lookupJob demoZeroSize 1).map (·.fileSize) = some 0 ∧
      Step demoAccounts demoZeroSize demoZeroSizeUpload ∧
      (lookupJob demoZeroSizeUpload 1).map (·.progress) = some 0 ∧
      ¬ (50 ≤ (0 : Int)) :=
  ⟨reachable_demoZeroSize, by decide, by decide,
   .progress 1 .upload 100 0 (by decide) (by norm_num) (by norm_num),
   by decide, by decide⟩

/-- **C8** (amended): `createTransfer` with equal source and destination
account ids never succeeds and leaves the engine untouched; the error is the
same-account validation error whenever the account resolves for the caller,
and the account-not-found error when it does not (both lookups hit the same
row, and the missing-account check runs before the same-id check). -/
theorem c8_same_account_rejected (accounts : List CloudAccount)
    (probe : Option Nat) (s : EngineState) (opts : CreateOptions) (now : Nat)
    (hsame : opts.sourceAccountId = opts.destinationAccountId) :
    exceptOk (createTransfer accounts probe s opts now) = false ∧
      createTransferState accounts probe s opts now = s ∧
      (∀ a, getCloudAccountById accounts opts.sourceAccountId opts.userId = some a →
        createTransfer accounts probe s opts now =
          .error "Source and destination accounts cannot be the same") ∧
      (getCloudAccountById accounts opts.sourceAccountId opts.userId = none →
        createTransfer accounts probe s opts now =
          .error "Source or destination account not found") := by
  have hd : getCloudAccountById accounts opts.destinationAccountId opts.userId =
      getCloudAccountById accounts opts.sourceAccountId opts.userId := by
    rw [hsame]
  rcases ha : getCloudAccountById accounts opts.sourceAccountId opts.userId with _ | a
  · have he : createTransfer accounts probe s opts now =
        .error "Source or destination account not found" := by
      unfold createTransfer
      rw [hd, ha]
    refine ⟨by rw [he]; rfl, ?_, ?_, fun _ => he⟩
    · unfold createTransferState
      rw [he]
    · intro a ha'
      cases ha'
  · have he : createTransfer accounts probe s opts now =
        .error "Source and destination accounts cannot be the same" := by
      unfold createTransfer
      rw [hd, ha]
      simp
    refine ⟨by rw [he]; rfl, ?_, fun _ _ => he, ?_⟩
    · unfold createTransferState
      rw [he]
    · intro hn
      cases hn

/-- Witness for C8: source = destination = account 1 of user 1. -/
theorem c8_same_account_rejected_witness :
    demoSameOpts.sourceAccountId = demoSameOpts.destinationAccountId ∧
      (exceptOk (createTransfer demoAccounts (some 7) initState demoSameOpts 0) =
          false ∧
        createTransferState demoAccounts (some 7) initState demoSameOpts 0 =
          initState ∧
        (∀ a, getCloudAccountById demoAccounts demoSameOpts.sourceAccountId
            demoSameOpts.userId = some a →
          createTransfer demoAccounts (some 7) initState demoSameOpts 0 =
            .error "Source and destination accounts cannot be the same") ∧
        (getCloudAccountById demoAccounts demoSameOpts.sourceAccountId
            demoSameOpts.userId = none →
          createTransfer demoAccounts (some 7) initState demoSameOpts 0 =
            .error "Source or destination account not found")) :=
  ⟨rfl, c8_same_account_rejected demoAccounts (some 7) initState demoSameOpts 0 rfl⟩

/-- **C8** (counterexample): with `sourceAccountId = destinationAccountId = 5`
and no account 5 in the store, the call fails with the account-not-found
error, not the same-account validation error the claim names. -/
theorem c8_not_validation_error_counterexample :
    demoMissingOpts.sourceAccountId = demoMissingOpts.destinationAccountId ∧
      createTransfer demoAccounts (some 1) initState demoMissingOpts 0 =
        .error "Source or destination account not found" ∧
      "Source or destination account not found" ≠
        "Source and destination accounts cannot be the same" :=
  ⟨rfl, rfl, by decide⟩

/-- **C9** (amended): `getTransferStatus(id, userId)` raises the not-found
error iff the id is not resident in the active set and the user-filtered
database lookup misses; an active id answers with the live `getStats()`
snapshot without any ownership check; a non-active id with a matching owned
row answers with the persisted fields. -/
theorem c9_status_lookup {accounts : List CloudAccount} {s : EngineState}
    (hR : Reachable accounts s) (transferId userId now : Nat) :
    (exceptOk (getTransferStatus s transferId userId now) = false ↔
      transferId ∉ s.activeTransfers ∧
        s.db.find? (fun r => r.id == transferId && r.user_id == userId) = none) ∧
      (∀ j, lookupJob s transferId = some j → transferId ∈ s.activeTransfers →
        getTransferStatus s transferId userId now = .ok (.live (j.getStats now))) ∧
      (∀ r, transferId ∉ s.activeTransfers →
        s.db.find? (fun r => r.id == transferId && r.user_id == userId) = some r →
        getTransferStatus s transferId userId now =
          .ok (.persisted r.id r.file_name r.status r.progress r.file_size
            r.transferred_bytes r.transfer_speed r.error_message r.created_at
            r.started_at r.completed_at)) := by
  obtain ⟨hInv, _⟩ := reachable_good hR
  by_cases hmem : transferId ∈ s.activeTransfers
  · obtain ⟨j0, hf0, _⟩ := hInv.activeJob _ hmem
    have hj0 : lookupJob s transferId = some j0 := hf0
    have hok : getTransferStatus s transferId userId now =
        .ok (.live (j0.getStats now)) := by
      unfold getTransferStatus
      rw [if_pos hmem, hj0]
    refine ⟨?_, ?_, ?_⟩
    · rw [hok]
      constructor
      · intro h
        simp [exceptOk] at h
      · rintro ⟨h, _⟩
        exact absurd hmem h
    · intro j hj _
      have hje : j0 = j := Option.some_inj.mp (hj0.symm.trans hj)
      rw [hok, hje]
    · intro r hnm _
      exact absurd hmem hnm
  · rcases hfr : s.db.find? (fun r => r.id == transferId && r.user_id == userId)
      with _ | r0
    · have herr : getTransferStatus s transferId userId now =
          .error "Transfer not found" := by
        unfold getTransferStatus
        rw [if_neg hmem, hfr]
      refine ⟨?_, ?_, ?_⟩
      · rw [herr]
        exact ⟨fun _ => ⟨hmem, hfr⟩, fun _ => rfl⟩
      · intro j _ hmem'
        exact absurd hmem' hmem
      · intro r _ hfind
        rw [hfr] at hfind
        cases hfind
    · have hok : getTransferStatus s transferId userId now =
          .ok (.persisted r0.id r0.file_name r0.status r0.progress r0.file_size
            r0.transferred_bytes r0.transfer_speed r0.error_message r0.created_at
            r0.started_at r0.completed_at) := by
        unfold getTransferStatus
        rw [if_neg hmem, hfr]
      refine ⟨?_, ?_, ?_⟩
      · rw [hok]
        constructor
        · intro h
          simp [exceptOk] at h
        · rintro ⟨_, hn⟩
          rw [hfr] at hn
          cases hn
      · intro j _ hmem'
        exact absurd hmem' hmem
      · intro r _ hfind
        have hre : r0 = r := Option.some_inj.mp (hfr.symm.trans hfind)
        rw [hok, hre]

/-- Witness for C9: user 2 querying user 1's active transfer 1. -/
theorem c9_status_lookup_witness :
    Reachable demoAccounts demoS1 ∧
      ((exceptOk (getTransferStatus demoS1 1 2 5) = false ↔
        (1 : Nat) ∉ demoS1.activeTransfers ∧
          demoS1.db.find? (fun r => r.id == 1 && r.user_id == 2) = none) ∧
        (∀ j, lookupJob demoS1 1 = some j → (1 : Nat) ∈ demoS1.activeTransfers →
          getTransferStatus demoS1 1 2 5 = .ok (.live (j.getStats 5))) ∧
        (∀ r, (1 : Nat) ∉ demoS1.activeTransfers →
          demoS1.db.find? (fun r => r.id == 1 && r.user_id == 2) = some r →
          getTransferStatus demoS1 1 2 5 =
            .ok (.persisted r.id r.file_name r.status r.progress r.file_size
              r.transferred_bytes r.transfer_speed r.error_message r.created_at
              r.started_at r.completed_at))) :=
  ⟨reachable_demoS1, c9_status_lookup reachable_demoS1 1 2 5⟩

/-- **C9** (counterexample): transfer 1 is active and owned by user 1, yet
`getTransferStatus(1, 2)` from user 2 succeeds with the live snapshot instead
of raising the not-found error the claim requires for a non-owner. -/
theorem c9_ownership_bypass_counterexample :
    Reachable demoAccounts demoS1 ∧
      (1 : Nat) ∈ demoS1.activeTransfers ∧
      (lookupJob demoS1 1).map (·.userId) = some 1 ∧
      (1 : Nat) ≠ 2 ∧
      exceptOk (getTransferStatus demoS1 1 2 5) = true :=
  ⟨reachable_demoS1, by decide, by decide, by decide, by decide⟩

/-- Witness for C10: cancelling transfer 4 as user 1 and as user 99 is the
same call, and both succeed. -/
theorem c10_cancel_ignores_user_witness :
    cancelTransfer demoS4 4 1 1 = cancelTransfer demoS4 4 99 1 ∧
      (cancelTransfer demoS4 4 1 1).2 =
        { success := true, message := "Transfer cancelled" } :=
  c10_cancel_ignores_user demoS4 4 1 99 1

theorem filter_ne_length_lt {l : List Nat} {a : Nat} (h : a ∈ l) :
    (l.filter (fun x => x ≠ a)).length < l.length := by
  induction l with
  | nil => cases h
  | cons b rest ih =>
    rw [List.filter_cons]
    by_cases hb : b = a
    · rw [if_neg (by simp [hb])]
      simp only [List.length_cons]
      exact Nat.lt_succ_of_le (List.length_filter_le _ _)
    · rcases List.mem_cons.mp h with he | hm
      · exact absurd he.symm hb
      · rw [if_pos (by simp [hb])]
        simp only [List.length_cons]
        exact Nat.succ_lt_succ (ih hm)

/-- When there is capacity and the queue head's job exists, a drain makes
progress: the head is started (it enters the pipe set), the started prefix is
piped, and the remaining queue is a tail of the old one. -/
theorem drainAux_progress {s : EngineState} {hd : Nat} {rest : List Nat}
    {now : Nat} {j : TransferJob}
    (hcap : s.activeTransfers.length < maxConcurrentTransfers)
    (hj : findJob s.jobs hd = some j) :
    ∃ m, (drainAux (hd :: rest) s now).transferQueue = rest.drop m ∧
      hd ∈ (drainAux (hd :: rest) s now).pipes ∧
      ∀ x ∈ rest.take m, x ∈ (drainAux (hd :: rest) s now).pipes := by
  rw [drainAux_cons_some hcap hj]
  obtain ⟨m, h1, _, h3, _⟩ := drainAux_take rest
    { jobs := writeJob s.jobs (j.start now)
      transferQueue := rest
      activeTransfers := s.activeTransfers ++ [hd]
      pipes := s.pipes ++ [hd]
      db := dbUpdateFromJob s.db (j.start now)
      nextId := s.nextId } now rfl
  refine ⟨m, h1, ?_, ?_⟩
  · rw [h3]
    exact List.mem_append_left _
      (List.mem_append_right _ (List.mem_singleton.mpr rfl))
  · intro x hx
    rw [h3]
    exact List.mem_append_right _ hx

/-- Liveness of the FIFO queue: from any invariant-respecting state, a job
waiting in the queue (or already piped) is eventually started — settling the
in-flight pipelines one by one frees slots, and every settle re-drains. -/
theorem eventually_piped (accounts : List CloudAccount) :
    ∀ (n : Nat) (s : EngineState), s.transferQueue.length ≤ n → Inv s →
      Drained s → ∀ id, id ∈ s.transferQueue ∨ id ∈ s.pipes →
      ∃ s', Relation.ReflTransGen (Step accounts) s s' ∧ id ∈ s'.pipes := by
  intro n
  induction n with
  | zero =>
    intro s hlen hI hD id hid
    rcases hid with hq | hp
    · rw [List.eq_nil_of_length_eq_zero (Nat.le_zero.mp hlen)] at hq
      cases hq
    · exact ⟨s, .refl, hp⟩
  | succ n ih =>
    intro s hlen hI hD id hid
    rcases hid with hq | hp
    case inr => exact ⟨s, .refl, hp⟩
    have hqne : s.transferQueue ≠ [] := List.ne_nil_of_mem hq
    have hpne : s.pipes ≠ [] := hD hqne
    obtain ⟨p, hppipe, hcap⟩ :
        ∃ p, p ∈ s.pipes ∧
          (s.activeTransfers.filter (fun a => a ≠ p)).length <
            maxConcurrentTransfers := by
      rcases hact : s.activeTransfers with _ | ⟨a, arest⟩
      · obtain ⟨p, hp⟩ :=
          List.exists_mem_of_length_pos (List.length_pos.mpr hpne)
        refine ⟨p, hp, ?_⟩
        simp [maxConcurrentTransfers]
      · have hmem : a ∈ s.activeTransfers := by
          rw [hact]
          exact List.mem_cons_self _ _
        have hlenle : (a :: arest).length ≤ maxConcurrentTransfers :=
          hact ▸ hI.activeLen
        exact ⟨a, hI.activePipes a hmem,
          lt_of_lt_of_le (filter_ne_length_lt (List.mem_cons_self a arest)) hlenle⟩
    obtain ⟨jp, hfp, _⟩ := hI.pipesJob p hppipe
    have hjp : lookupJob s p = some jp := hfp
    obtain ⟨hjpmem, hjpid⟩ := findJob_some hfp
    obtain ⟨hI₁, hD₁⟩ := inv_processComplete 0 hppipe hI
    have hstep : Step accounts s (processComplete s p 0) := .complete p 0 hppipe
    rcases hqe : s.transferQueue with _ | ⟨hd, rest⟩
    · exact absurd hqe hqne
    have hhdq : hd ∈ s.transferQueue := by
      rw [hqe]
      exact List.mem_cons_self _ _
    have hhdp : hd ∉ s.pipes := hI.queuePipes hd hhdq
    have hhdne : hd ≠ p := fun he => hhdp (he ▸ hppipe)
    obtain ⟨jq, hfq, _⟩ := hI.queueJob hd hhdq
    have hIfindhd :
        findJob (writeJob s.jobs (jp.complete 0)) hd = some jq := by
      rw [findJob_writeJob, if_neg (by rw [complete_id, hjpid]; exact hhdne)]
      exact hfq
    have heq : processComplete s p 0 =
        drainAux (hd :: rest)
          { jobs := writeJob s.jobs (jp.complete 0)
            transferQueue := s.transferQueue
            activeTransfers := s.activeTransfers.filter (fun a => a ≠ p)
            pipes := s.pipes.filter (fun a => a ≠ p)
            db := dbUpdateFromJob s.db (jp.complete 0)
            nextId := s.nextId } 0 := by
      rw [processComplete_some hjp]
      exact congrArg (fun q => drainAux q _ 0) hqe
    obtain ⟨m, hq1, hhd1, htake1⟩ :=
      @drainAux_progress
        { jobs := writeJob s.jobs (jp.complete 0)
          transferQueue := s.transferQueue
          activeTransfers := s.activeTransfers.filter (fun a => a ≠ p)
          pipes := s.pipes.filter (fun a => a ≠ p)
          db := dbUpdateFromJob s.db (jp.complete 0)
          nextId := s.nextId } hd rest 0 jq hcap hIfindhd
    rcases List.mem_cons.mp (hqe ▸ hq) with hide | hidr
    · subst hide
      exact ⟨processComplete s p 0, Relation.ReflTransGen.single hstep,
        by rw [heq]; exact hhd1⟩
    · have hsplit : id ∈ rest.take m ++ rest.drop m := by
        rw [List.take_append_drop]
        exact hidr
      rcases List.mem_append.mp hsplit with htk | hdr
      · exact ⟨processComplete s p 0, Relation.ReflTransGen.single hstep,
          by rw [heq]; exact htake1 id htk⟩
      · have hlen₁ : (processComplete s p 0).transferQueue.length ≤ n := by
          rw [heq, hq1]
          have h1 : (rest.drop m).length ≤ rest.length :=
            by rw [List.length_drop]; omega
          have h2 : rest.length + 1 ≤ n + 1 := by
            have := hlen
            rw [hqe] at this
            simpa using this
          omega
        have hqmem₁ : id ∈ (processComplete s p 0).transferQueue := by
          rw [heq, hq1]
          exact hdr
        obtain ⟨s'', htr, hmem''⟩ :=
          ih (processComplete s p 0) hlen₁ hI₁ hD₁ id (Or.inl hqmem₁)
        exact ⟨s'', Relation.ReflTransGen.head hstep htr, hmem''⟩

/-- **C7**: a `createTransfer` whose source-size probe failed (modelled by
`probe = none`) is non-fatal: the call still succeeds with
`{transferId, status := "queued"}`, the in-memory job exists with
`fileSize = 0`, a row for it is persisted with `file_size = 0` (status
`queued`, or already `running` if the drain started it at once), the job is
in the pending queue or already started, and from the resulting state a
sequence of engine transitions always exists after which the job's pipeline
has been started — no job is silently dropped. -/
theorem c7_probe_failure_nonfatal {accounts : List CloudAccount}
    {s : EngineState} {opts : CreateOptions} {now : Nat} {sa da : CloudAccount}
    (hR : Reachable accounts s)
    (hsa : getCloudAccountById accounts opts.sourceAccountId opts.userId = some sa)
    (hda : getCloudAccountById accounts opts.destinationAccountId opts.userId =
      some da)
    (hne : sa.id ≠ da.id) :
    ∃ s', createTransfer accounts none s opts now =
        .ok (s', { transferId := s.nextId, status := "queued" }) ∧
      Reachable accounts s' ∧
      (∃ j, findJob s'.jobs s.nextId = some j ∧ j.fileSize = 0) ∧
      (∃ r ∈ s'.db, r.id = s.nextId ∧ r.user_id = opts.userId ∧
        r.file_size = 0 ∧ (r.status = .queued ∨ r.status = .running)) ∧
      (s.nextId ∈ s'.transferQueue ∨ s.nextId ∈ s'.pipes) ∧
      (∃ s'', Relation.ReflTransGen (Step accounts) s' s'' ∧
        s.nextId ∈ s''.pipes) := by
  obtain ⟨hInv, _⟩ := reachable_good hR
  set fs0 : Rat := (((none : Option Nat).getD 0 : Nat) : Rat) with hfs0
  have hok : createTransfer accounts none s opts now =
      .ok (processQueue (enqueueState s opts fs0 now) now,
        { transferId := s.nextId, status := "queued" }) := by
    unfold createTransfer
    rw [hsa, hda]
    simp only [show (sa.id == da.id) = false from by simpa using hne,
      Bool.false_eq_true, if_false]
  set E : EngineState := enqueueState s opts fs0 now with hE
  have hInvE : Inv E := inv_enqueueState opts now (Nat.cast_nonneg _) hInv
  obtain ⟨hInv', hfull'⟩ := inv_processQueue now hInvE
  have hD' := inv_full_drained hInv' hfull'
  have hfreshJobs : ∀ k ∈ s.jobs, k.id ≠ s.nextId :=
    fun k hk => Nat.ne_of_lt (hInv.jobsLt k hk)
  have hqp : s.nextId ∈ (processQueue E now).transferQueue ∨
      s.nextId ∈ (processQueue E now).pipes := by
    obtain ⟨m, hq', _, hp', _⟩ := drainAux_take E.transferQueue E now rfl
    have hmemE : s.nextId ∈ E.transferQueue := by
      show s.nextId ∈ s.transferQueue ++ [s.nextId]
      exact List.mem_append_right _ (List.mem_singleton.mpr rfl)
    have hsplit : s.nextId ∈ E.transferQueue.take m ++ E.transferQueue.drop m := by
      rw [List.take_append_drop]
      exact hmemE
    rcases List.mem_append.mp hsplit with htk | hdr
    · right
      show s.nextId ∈ (drainAux E.transferQueue E now).pipes
      rw [hp']
      exact List.mem_append_right _ htk
    · left
      show s.nextId ∈ (drainAux E.transferQueue E now).transferQueue
      rw [hq']
      exact hdr
  refine ⟨_, hok, .step hR (.create none opts now hok), ?_, ?_, hqp, ?_⟩
  · have hEfind : findJob E.jobs s.nextId =
        some (newTransferJob opts s.nextId fs0 now) := by
      show findJob (s.jobs ++ [newTransferJob opts s.nextId fs0 now]) s.nextId = _
      rw [findJob_append_fresh hfreshJobs]
      simp [findJob, newTransferJob]
    rcases drainAux_lookup E.transferQueue E now hInvE.queueNodup s.nextId with
      hunch | ⟨_, jx, hfx, hpost⟩
    · refine ⟨newTransferJob opts s.nextId fs0 now, ?_, by simp [newTransferJob, hfs0]⟩
      show findJob (drainAux E.transferQueue E now).jobs s.nextId = _
      rw [hunch]
      exact hEfind
    · have hjx : jx = newTransferJob opts s.nextId fs0 now :=
        Option.some_inj.mp (hfx.symm.trans hEfind)
      refine ⟨jx.start now, hpost, ?_⟩
      rw [start_fs, hjx]
      simp [newTransferJob, hfs0]
  · apply drainAux_db
    refine ⟨newDbRow opts s.nextId fs0 now, ?_, rfl, rfl,
      by simp [newDbRow, hfs0], Or.inl rfl⟩
    show _ ∈ s.db ++ [newDbRow opts s.nextId fs0 now]
    exact List.mem_append_right _ (List.mem_singleton.mpr rfl)
  · exact eventually_piped accounts (processQueue E now).transferQueue.length
      (processQueue E now) le_rfl hInv' hD' s.nextId hqp

/-- Witness for C7 at the empty engine: the probe-failed transfer of user 1
is accepted, stored with size 0, and started. -/
theorem c7_probe_failure_nonfatal_witness :
    ∃ s', createTransfer demoAccounts none initState demoOpts 0 =
        .ok (s', { transferId := initState.nextId, status := "queued" }) ∧
      Reachable demoAccounts s' ∧
      (∃ j, findJob s'.jobs initState.nextId = some j ∧ j.fileSize = 0) ∧
      (∃ r ∈ s'.db, r.id = initState.nextId ∧ r.user_id = demoOpts.userId ∧
        r.file_size = 0 ∧ (r.status = .queued ∨ r.status = .running)) ∧
      (initState.nextId ∈ s'.transferQueue ∨ initState.nextId ∈ s'.pipes) ∧
      (∃ s'', Relation.ReflTransGen (Step demoAccounts) s' s'' ∧
        initState.nextId ∈ s''.pipes) :=
  c7_probe_failure_nonfatal .init rfl rfl (by decide)

end CloudTransfer
